import Mathlib

set_option maxRecDepth 1000000
set_option maxHeartbeats 2000000

/-!
Verification of the listing-evidence extraction and confidence-scoring engine
of the Art-detective repository, as a shallow embedding in Lean 4.

The embedded code is the TypeScript module around `buildSnapshotFromUrl`
(fetching, JSON-LD / meta / pattern extraction, keyword evidence checks,
weighted bucket scoring, recommended action, source tagging).

JavaScript numbers are IEEE-754 binary64 doubles.  Every numeric value that
flows through the scoring pipeline is nonnegative, so doubles are modelled
exactly as dyadic rationals `m * 2^e` with `m : Nat`, `e : Int`, rounded to a
53-bit significand with round-to-nearest, ties-to-even, exactly as IEEE-754
prescribes (no overflow/underflow occurs in the value ranges of this program).
-/

namespace ArtDetective

/-- A nonnegative IEEE-754 binary64 value, represented exactly as `m * 2^e`. -/
structure FP where
  m : Nat
  e : Int
  deriving DecidableEq, Repr

/-- Fuelled base-2 logarithm on `Nat` (`log2F fuel n = ⌊log₂ n⌋` for `n ≥ 1`
whenever `n < 2^fuel`); avoids well-founded recursion so the kernel can
evaluate it cheaply. -/
def log2F : Nat → Nat → Nat
  | 0, _ => 0
  | fuel + 1, n => if n ≤ 1 then 0 else log2F fuel (n / 2) + 1

/-- Drop the low `k` bits of `m`, rounding to nearest, ties to even; `sticky`
records whether additional nonzero bits were already discarded below `m`. -/
def rshiftRNE (m k : Nat) (sticky : Bool) : Nat :=
  if k = 0 then m
  else
    let q := m / 2 ^ k
    let r := m % 2 ^ k
    let h := 2 ^ (k - 1)
    if h < r then q + 1
    else if r < h then q
    else if sticky then q + 1
    else if q % 2 = 0 then q else q + 1

/-- Round `m * 2^e` to 53 significant bits (round to nearest, ties to even). -/
def fpNorm (m : Nat) (e : Int) : FP :=
  if m = 0 then ⟨0, 0⟩
  else
    let b := log2F 300 m
    if b ≤ 52 then ⟨m, e⟩
    else
      let k := b - 52
      ⟨rshiftRNE m k false, e + (k : Int)⟩

/-- IEEE-754 double addition of nonnegative values. -/
def fpAdd (x y : FP) : FP :=
  if x.m = 0 then y
  else if y.m = 0 then x
  else if x.e ≤ y.e then fpNorm (x.m + y.m * 2 ^ (y.e - x.e).toNat) x.e
  else fpNorm (y.m + x.m * 2 ^ (x.e - y.e).toNat) y.e

/-- IEEE-754 double multiplication of nonnegative values. -/
def fpMul (x y : FP) : FP :=
  if x.m = 0 || y.m = 0 then ⟨0, 0⟩ else fpNorm (x.m * y.m) (x.e + y.e)

/-- Correctly rounded `(a / b) * 2^e` as a double (`b ≠ 0`); the scaled
quotient carries enough bits that the remainder only matters as a sticky bit. -/
def fpDivCore (a b : Nat) (e : Int) : FP :=
  if a = 0 || b = 0 then ⟨0, 0⟩
  else
    let s := 106 + log2F 300 b
    let n := a * 2 ^ s
    let q := n / b
    let r := n % b
    let bb := log2F 300 q
    let k := bb - 52
    ⟨rshiftRNE q k (r != 0), e - (s : Int) + (k : Int)⟩

/-- IEEE-754 double division of nonnegative values. -/
def fpDiv (x y : FP) : FP := fpDivCore x.m y.m (x.e - y.e)

/-- The double holding the natural number `n` (exact for `n < 2^53`). -/
def fpOfNat (n : Nat) : FP := fpNorm n 0

/-- `Math.round` on a nonnegative double: nearest integer, ties toward `+∞`. -/
def jsRoundFP (x : FP) : Nat :=
  if 0 ≤ x.e then x.m * 2 ^ x.e.toNat
  else
    let d := (-x.e).toNat
    let ip := x.m / 2 ^ d
    let fr := x.m % 2 ^ d
    if 2 ^ d ≤ 2 * fr then ip + 1 else ip

/-- The exact rational value of a nonnegative double. -/
def FP.toRat (x : FP) : ℚ := (x.m : ℚ) * (2 : ℚ) ^ x.e

/-- Rounding of an exact rational to the nearest integer, ties toward `+∞` —
this is the `round` of the specification. -/
def ratRoundHalfUp (q : ℚ) : ℤ := Int.floor (q + 1 / 2)

end ArtDetective

namespace ArtDetective

/-! ### Character classes (JavaScript regex semantics, ASCII-faithful)

`\w` is `[A-Za-z0-9_]`, `\d` is `[0-9]`, `\s` is the ECMAScript WhiteSpace and
LineTerminator set, `.` excludes the four line terminators.  `toLowerCase` is
modelled on ASCII letters (every string and pattern in scope is ASCII). -/

def isAsciiUpper (c : Char) : Bool := 65 ≤ c.toNat && c.toNat ≤ 90

def isAsciiLowerC (c : Char) : Bool := 97 ≤ c.toNat && c.toNat ≤ 122

def isAZ (c : Char) : Bool := isAsciiUpper c || isAsciiLowerC c

def isDigitC (c : Char) : Bool := 48 ≤ c.toNat && c.toNat ≤ 57

def isWordC (c : Char) : Bool := isAZ c || isDigitC c || c = '_'

def jsWs (c : Char) : Bool :=
  (9 ≤ c.toNat && c.toNat ≤ 13) || c.toNat = 32 || c.toNat = 160 || c.toNat = 5760 ||
  (8192 ≤ c.toNat && c.toNat ≤ 8202) || c.toNat = 8232 || c.toNat = 8233 ||
  c.toNat = 8239 || c.toNat = 8287 || c.toNat = 12288 || c.toNat = 65279

def isDotC (c : Char) : Bool :=
  !(c.toNat = 10 || c.toNat = 13 || c.toNat = 8232 || c.toNat = 8233)

def lowerC (c : Char) : Char := if isAsciiUpper c then Char.ofNat (c.toNat + 32) else c

def charEqCI (a b : Char) : Bool := lowerC a == lowerC b

/-- Case-insensitive "the pattern starts here" test on character lists. -/
def startsCI : List Char → List Char → Bool
  | [], _ => true
  | _ :: _, [] => false
  | p :: ps, c :: cs => charEqCI p c && startsCI ps cs

/-- Case-insensitive substring containment (a regex `/literal/i` test). -/
def containsCI (pat : List Char) : List Char → Bool
  | [] => startsCI pat []
  | c :: rest => startsCI pat (c :: rest) || containsCI pat rest

/-- Case-sensitive substring containment (plain `String.includes`). -/
def startsEx : List Char → List Char → Bool
  | [], _ => true
  | _ :: _, [] => false
  | p :: ps, c :: cs => p == c && startsEx ps cs

def containsEx (pat : List Char) : List Char → Bool
  | [] => startsEx pat []
  | c :: rest => startsEx pat (c :: rest) || containsEx pat rest

/-! ### Word-bounded keyword alternations

Every evidence predicate in the source is a regex of shape `\b(alt|…|alt)\b`
with `/i`.  Alternatives are literal phrases except two in the edition test:
`ed\.\s?\d+` and `\/\d{1,4}`.  `\b` holds between two positions whose word-char
status differs (string edges count as non-word). -/

inductive KwAlt where
  | lit (chars : List Char)
  | edNum
  | slashNum
  deriving DecidableEq, Repr

def kw (s : String) : KwAlt := .lit s.data

def wordOpt : Option Char → Bool
  | none => false
  | some c => isWordC c

/-- Match one alternative at the head of `s`, returning the length matched and
the last character of the matched text (for the trailing `\b`). -/
def altMatch : KwAlt → List Char → Option (Nat × Char)
  | .lit pat, s =>
      if startsCI pat s then some (pat.length, (s.take pat.length).getLastD ' ') else none
  | .edNum, s =>
      -- ed\.\s?\d+ : "ed." then at most one whitespace then one or more digits
      if startsCI "ed.".data s then
        let rest := s.drop 3
        let rest2 := match rest with
          | c :: cs => if jsWs c then (1, cs) else (0, rest)
          | [] => (0, rest)
        let ds := rest2.2.takeWhile isDigitC
        if ds.length = 0 then none
        else some (3 + rest2.1 + ds.length, ds.getLastD ' ')
      else none
  | .slashNum, s =>
      -- \/\d{1,4} : a slash then one to four digits
      match s with
      | c :: rest =>
          if c = '/' then
            let ds := (rest.takeWhile isDigitC).take 4
            if ds.length = 0 then none else some (1 + ds.length, ds.getLastD ' ')
          else none
      | [] => none

def altOkAt (prev : Option Char) (s : List Char) (a : KwAlt) : Bool :=
  match altMatch a s with
  | none => false
  | some (len, lastC) =>
      (wordOpt prev != wordOpt s.head?) &&
      (wordOpt (some lastC) != wordOpt ((s.drop len).head?))

def scanWB (alts : List KwAlt) : Option Char → List Char → Bool
  | _, [] => false
  | prev, c :: rest => alts.any (altOkAt prev (c :: rest)) || scanWB alts (some c) rest

/-- `\b(alt|…)\b` test (with `/i`) over a whole text. -/
def testWB (alts : List KwAlt) (s : List Char) : Bool := scanWB alts none s

/-! ### The keyword evidence predicates of `buildSnapshotFromUrl` -/

def hasCoa (s : List Char) : Bool :=
  testWB [kw "coa", kw "certificate of authenticity", kw "authenticity certificate"] s

def hasSignatureEvidence (s : List Char) : Bool :=
  testWB [kw "signed", kw "signature", kw "hand-signed", kw "hand signed"] s

def hasEditionEvidence (s : List Char) : Bool :=
  testWB [kw "edition", .edNum, .slashNum, kw "numbered"] s

def hasProvenance (s : List Char) : Bool :=
  testWB [kw "provenance", kw "acquired from", kw "from the collection",
          kw "previous sale", kw "auction", kw "sold at"] s

def hasReleaseContext (s : List Char) : Bool :=
  testWB [kw "released", kw "release", kw "drop", kw "year", kw "published"] s

def hasPriceComparable (s : List Char) : Bool :=
  testWB [kw "comparable", kw "market", kw "last sale", kw "price history",
          kw "median", kw "percentile"] s

def hasReturnPolicy (s : List Char) : Bool :=
  testWB [kw "return policy", kw "returns accepted", kw "return within", kw "no returns"] s

def hasInsurance (s : List Char) : Bool :=
  testWB [kw "shipping insurance", kw "insured shipping", kw "insured"] s

def hasBuyerProtection (s : List Char) : Bool :=
  testWB [kw "buyer protection", kw "money back guarantee", kw "guarantee"] s

def hasSellerReliability (s : List Char) : Bool :=
  testWB [kw "positive feedback", kw "seller rating", kw "top rated seller", kw "trusted seller"] s

def hasDocsWord (s : List Char) : Bool :=
  testWB [kw "receipt", kw "invoice", kw "proof of purchase", kw "documentation"] s

/-- Bot-interstitial signature test of the Fetcher. -/
def isLikelyBotBlock (s : List Char) : Bool :=
  testWB [kw "robot check", kw "access denied", kw "to continue, please verify",
          kw "security measure", kw "captcha"] s

end ArtDetective

namespace ArtDetective

/-! ### Generic leftmost-match scanning helpers -/

/-- Leftmost match of an anchored matcher `f` over all suffixes. -/
def scanFirst {α : Type} (f : List Char → Option α) : List Char → Option α
  | [] => f []
  | c :: rest =>
      match f (c :: rest) with
      | some v => some v
      | none => scanFirst f rest

/-- Leftmost match of `f`, also returning how many characters precede it. -/
def searchPos {α : Type} (f : List Char → Option α) : List Char → Option (Nat × α)
  | [] => (f []).map (fun v => (0, v))
  | c :: rest =>
      match f (c :: rest) with
      | some v => some (0, v)
      | none => (searchPos f rest).map (fun p => (p.1 + 1, p.2))

/-- JavaScript `String.prototype.trim` (strips the `\s` set from both ends). -/
def jsTrimL (s : List Char) : List Char :=
  ((s.dropWhile jsWs).reverse.dropWhile jsWs).reverse

def qmark : Char := Char.ofNat 34

def apos : Char := Char.ofNat 39

def isQuoteDelim (c : Char) : Bool := c = qmark || c = apos

/-! ### `<title>` extraction and the eBay suffix strip -/

/-- Anchored matcher for the `/<title>([^<]+)<\/title>/i` capture. -/
def titleTagAt (s : List Char) : Option (List Char) :=
  if startsCI "<title>".data s then
    let rest := s.drop 7
    let cap := rest.takeWhile (fun c => !(c = '<'))
    if cap.length = 0 then none
    else if startsCI "</title>".data (rest.drop cap.length) then some cap else none
  else none

def titleTagMatch (raw : List Char) : Option (List Char) := scanFirst titleTagAt raw

/-- Does `/\s*\|\s*eBay.*$/i` match starting exactly here (running to the end
of the string with no line terminator)? -/
def ebaySuffixHere (s : List Char) : Bool :=
  match s.dropWhile jsWs with
  | c :: rest =>
      c = '|' &&
        (let u := rest.dropWhile jsWs
         startsCI "ebay".data u && (u.drop 4).all isDotC)
  | [] => false

/-- `title.replace(/\s*\|\s*eBay.*$/i, "")`: delete from the leftmost match of
the suffix pattern to the end. -/
def stripEbaySuffix : List Char → List Char
  | [] => []
  | c :: rest => if ebaySuffixHere (c :: rest) then [] else c :: stripEbaySuffix rest

/-! ### `<meta>` content extraction

`extractMetaContent` tries
`/<meta[^>]+(?:property|name)=["']KEY["'][^>]+content=["']([^"']+)["']/i` and
then the content-first variant.  All fixed parts of the pattern are free of
`>`, so they live inside the maximal `>`-free run after `<meta`, while the
capture `([^"']+)` may run past a `>`.  The model takes the leftmost viable
occurrence of each part (the inputs used in the theorems below are
unambiguous, so greedy-versus-leftmost choices inside one tag do not arise). -/

def attrKeyHere (key : List Char) (s : List Char) : Option Nat :=
  let tryKind : List Char → Option Nat := fun kind =>
    if startsCI (kind ++ ['=']) s then
      match s.drop (kind.length + 1) with
      | q1 :: rest =>
          if isQuoteDelim q1 && startsCI key rest then
            match rest.drop key.length with
            | q2 :: _ => if isQuoteDelim q2 then some (kind.length + 1 + 1 + key.length + 1) else none
            | [] => none
          else none
      | [] => none
    else none
  match tryKind "property".data with
  | some n => some n
  | none => tryKind "name".data

def contentOpenHere (s : List Char) : Option Nat :=
  if startsCI "content=".data s then
    match s.drop 8 with
    | q :: _ => if isQuoteDelim q then some 9 else none
    | [] => none
  else none

/-- Capture of `([^"']+)["']` starting at the head of `tail`. -/
def quotedCapture (tail : List Char) : Option (List Char) :=
  let cap := tail.takeWhile (fun c => !(isQuoteDelim c))
  if cap.length = 0 then none
  else
    match (tail.drop cap.length).head? with
    | some c => if isQuoteDelim c then some cap else none
    | none => none

/-- Attribute-first `<meta>` pattern, anchored at a `<meta` occurrence. -/
def metaAt1 (key : List Char) (s : List Char) : Option (List Char) :=
  if startsCI "<meta".data s then
    let body := s.drop 5
    let run := body.takeWhile (fun c => !(c = '>'))
    match searchPos (attrKeyHere key) (run.drop 1) with
    | none => none
    | some (i, la) =>
        let rem := run.drop (1 + i + la)
        match searchPos contentOpenHere (rem.drop 1) with
        | none => none
        | some (j, lc) => quotedCapture (body.drop (1 + i + la + 1 + j + lc))
  else none

/-- Content-first `<meta>` pattern, anchored at a `<meta` occurrence. -/
def metaAt2 (key : List Char) (s : List Char) : Option (List Char) :=
  if startsCI "<meta".data s then
    let body := s.drop 5
    let run := body.takeWhile (fun c => !(c = '>'))
    match searchPos contentOpenHere (run.drop 1) with
    | none => none
    | some (j, lc) =>
        match quotedCapture (body.drop (1 + j + lc)) with
        | none => none
        | some cap =>
            let after := body.drop (1 + j + lc + cap.length + 1)
            let run2 := after.takeWhile (fun c => !(c = '>'))
            match searchPos (attrKeyHere key) (run2.drop 1) with
            | some _ => some cap
            | none => none
  else none

def extractMetaContent (raw : List Char) (key : List Char) : Option (List Char) :=
  match scanFirst (metaAt1 key) raw with
  | some v => some v
  | none => scanFirst (metaAt2 key) raw

/-! ### JSON-LD script block scanner

`/<script[^>]+type=["']application\/ld\+json["'][^>]*>([\s\S]*?)<\/script>/gi`:
all parts of the opening tag are `>`-free, so a match at a `<script`
occurrence is determined by the maximal `>`-free run after it (which must
contain the type attribute at offset ≥ 1) and the lazily captured body runs to
the first following `</script>`. -/

def ldTypeHere (s : List Char) : Option Nat :=
  if startsCI "type=".data s then
    match s.drop 5 with
    | q1 :: rest =>
        if isQuoteDelim q1 && startsCI "application/ld+json".data rest then
          match rest.drop 19 with
          | q2 :: _ => if isQuoteDelim q2 then some (5 + 1 + 19 + 1) else none
          | [] => none
        else none
    | [] => none
  else none

def closeScriptHere (s : List Char) : Option Nat :=
  if startsCI "</script>".data s then some 9 else none

/-- Anchored match of one JSON-LD script block: returns the captured body and
the remainder of the input after the full match. -/
def ldMatchAt (s : List Char) : Option (List Char × List Char) :=
  if startsCI "<script".data s then
    let body := s.drop 7
    let run := body.takeWhile (fun c => !(c = '>'))
    if run.length < body.length then
      match searchPos ldTypeHere (run.drop 1) with
      | none => none
      | some _ =>
          let after := body.drop (run.length + 1)
          match searchPos closeScriptHere after with
          | none => none
          | some (i, l) => some (after.take i, after.drop (i + l))
    else none
  else none

/-- Global scan collecting every JSON-LD script body, in document order. -/
def scanLdScriptsF : Nat → List Char → List (List Char)
  | 0, _ => []
  | _, [] => []
  | fuel + 1, c :: rest =>
      match ldMatchAt (c :: rest) with
      | some (cap, after) => cap :: scanLdScriptsF fuel after
      | none => scanLdScriptsF fuel rest

def scanLdScripts (raw : List Char) : List (List Char) := scanLdScriptsF (raw.length + 1) raw

end ArtDetective

namespace ArtDetective

/-! ### JavaScript numbers and `Number(string)`

A finite JavaScript number is a signed double.  `none` at use sites stands for
NaN (the program only ever distinguishes NaN from finite values through
`Number.isFinite` and truthiness, where non-finite and undefined behave alike
in every code path modelled here; non-decimal `Number` syntax such as hex or
`Infinity`, never exercised by the program's inputs, is folded into NaN). -/

structure JsNum where
  neg : Bool
  mag : FP
  deriving DecidableEq, Repr

def JsNum.toRat (n : JsNum) : ℚ := if n.neg then -(n.mag.toRat) else n.mag.toRat

def jsNumZero : JsNum := ⟨false, ⟨0, 0⟩⟩

def digitVal (c : Char) : Nat := c.toNat - 48

def digitsToNat (ds : List Char) : Nat := ds.foldl (fun a c => a * 10 + digitVal c) 0

/-- Correctly rounded double value of the decimal `mant * 10^exp10` with sign. -/
def fpOfDecimal (negSign : Bool) (mant : Nat) (exp10 : Int) : JsNum :=
  if 0 ≤ exp10 then ⟨negSign, fpDivCore (mant * 10 ^ exp10.toNat) 1 0⟩
  else ⟨negSign, fpDivCore mant (10 ^ (-exp10).toNat) 0⟩

/-- Optional exponent part `[eE][+-]?\d+`; returns (exponent, rest). -/
def parseExpPart (s : List Char) : Option (Int × List Char) :=
  match s with
  | c :: rest =>
      if c = 'e' || c = 'E' then
        let signRest : Bool × List Char :=
          match rest with
          | d :: ds => if d = '+' then (false, ds) else if d = '-' then (true, ds) else (false, rest)
          | [] => (false, rest)
        let ds := signRest.2.takeWhile isDigitC
        if ds.length = 0 then none
        else
          let n : Int := (digitsToNat ds : Int)
          some (if signRest.1 then -n else n, signRest.2.drop ds.length)
      else none
  | [] => none

/-- `Number(string)` (ECMAScript ToNumber on a string): trims, accepts the
empty string as 0, otherwise an optionally signed decimal literal
(`digits [. digits] | . digits`, optional exponent); anything else is NaN. -/
def jsNumberOfStr (s : List Char) : Option JsNum :=
  let t := jsTrimL s
  if t.isEmpty then some jsNumZero
  else
    let signBody : Bool × List Char :=
      match t with
      | c :: rest => if c = '+' then (false, rest) else if c = '-' then (true, rest) else (false, t)
      | [] => (false, t)
    let ip := signBody.2.takeWhile isDigitC
    let afterInt := signBody.2.drop ip.length
    let fracRest : List Char × List Char :=
      match afterInt with
      | c :: rest => if c = '.' then (rest.takeWhile isDigitC, rest.drop (rest.takeWhile isDigitC).length) else ([], afterInt)
      | [] => ([], afterInt)
    if ip.length = 0 && fracRest.1.length = 0 then none
    else
      let hadDot := afterInt.head? = some '.'
      let afterFrac := if hadDot then fracRest.2 else afterInt
      let expRes : Int × List Char :=
        match parseExpPart afterFrac with
        | some (e, r) => (e, r)
        | none => (0, afterFrac)
      if expRes.2.isEmpty then
        if afterFrac ≠ expRes.2 || (parseExpPart afterFrac).isNone then
          some (fpOfDecimal signBody.1 (digitsToNat (ip ++ fracRest.1))
            (expRes.1 - (fracRest.1.length : Int)))
        else none
      else none

/-! ### JSON values and `JSON.parse` -/

inductive Json where
  | null
  | bool (b : Bool)
  | num (n : JsNum)
  | str (s : List Char)
  | arr (items : List Json)
  | obj (fields : List (List Char × Json))

def jsonWsC (c : Char) : Bool :=
  c = ' ' || c = Char.ofNat 9 || c = Char.ofNat 10 || c = Char.ofNat 13

def lbrace : Char := Char.ofNat 123

def rbrace : Char := Char.ofNat 125

def backslashC : Char := Char.ofNat 92

def hexVal (c : Char) : Option Nat :=
  if isDigitC c then some (c.toNat - 48)
  else if 97 ≤ (lowerC c).toNat && (lowerC c).toNat ≤ 102 then some ((lowerC c).toNat - 87)
  else none

def parseHex4 (s : List Char) : Option (Nat × List Char) :=
  match s with
  | a :: b :: c :: d :: rest =>
      match hexVal a, hexVal b, hexVal c, hexVal d with
      | some x, some y, some z, some w => some (((x * 16 + y) * 16 + z) * 16 + w, rest)
      | _, _, _, _ => none
  | _ => none

/-- JSON string body after the opening quote.  Raw control characters are
rejected as `JSON.parse` does; `\uXXXX` surrogate pairs are combined (a lone
surrogate, impossible in the inputs used here, falls back to `Char.ofNat`). -/
def parseJsonStr : Nat → List Char → Option (List Char × List Char)
  | 0, _ => none
  | fuel + 1, s =>
      match s with
      | [] => none
      | c :: rest =>
          if c = qmark then some ([], rest)
          else if c = backslashC then
            match rest with
            | [] => none
            | e :: rest2 =>
                let esc : Option (Char × List Char) :=
                  if e = qmark then some (qmark, rest2)
                  else if e = backslashC then some (backslashC, rest2)
                  else if e = '/' then some ('/', rest2)
                  else if e = 'b' then some (Char.ofNat 8, rest2)
                  else if e = 'f' then some (Char.ofNat 12, rest2)
                  else if e = 'n' then some (Char.ofNat 10, rest2)
                  else if e = 'r' then some (Char.ofNat 13, rest2)
                  else if e = 't' then some (Char.ofNat 9, rest2)
                  else if e = 'u' then
                    match parseHex4 rest2 with
                    | none => none
                    | some (hi, r1) =>
                        if 55296 ≤ hi && hi ≤ 56319 then
                          match r1 with
                          | uphi :: u2 :: r1b =>
                              if uphi = backslashC && u2 = 'u' then
                                match parseHex4 r1b with
                                | some (lo, r2) =>
                                    if 56320 ≤ lo && lo ≤ 57343 then
                                      some (Char.ofNat (65536 + (hi - 55296) * 1024 + (lo - 56320)), r2)
                                    else some (Char.ofNat hi, r1)
                                | none => some (Char.ofNat hi, r1)
                              else some (Char.ofNat hi, r1)
                          | _ => some (Char.ofNat hi, r1)
                        else some (Char.ofNat hi, r1)
                  else none
                match esc with
                | none => none
                | some (ch, r) =>
                    match parseJsonStr fuel r with
                    | some (tail, rest3) => some (ch :: tail, rest3)
                    | none => none
          else if c.toNat < 32 then none
          else
            match parseJsonStr fuel rest with
            | some (tail, rest3) => some (c :: tail, rest3)
            | none => none

/-- JSON number grammar: `-? (0 | [1-9]\d*) (\.\d+)? ([eE][+-]?\d+)?`. -/
def parseJsonNum (s : List Char) : Option (Json × List Char) :=
  let signBody : Bool × List Char :=
    match s with
    | c :: rest => if c = '-' then (true, rest) else (false, s)
    | [] => (false, s)
  let ipAll := signBody.2.takeWhile isDigitC
  if ipAll.length = 0 then none
  else if 1 < ipAll.length && ipAll.head? = some '0' then none
  else
    let afterInt := signBody.2.drop ipAll.length
    let fracRest : Option (List Char × List Char) :=
      match afterInt with
      | c :: rest =>
          if c = '.' then
            let fs := rest.takeWhile isDigitC
            if fs.length = 0 then none else some (fs, rest.drop fs.length)
          else some ([], afterInt)
      | [] => some ([], afterInt)
    match fracRest with
    | none => none
    | some (fs, afterFrac) =>
        let expRes : Option (Int × List Char) :=
          match afterFrac with
          | c :: _ =>
              if c = 'e' || c = 'E' then parseExpPart afterFrac else some (0, afterFrac)
          | [] => some (0, afterFrac)
        match expRes with
        | none => none
        | some (e, rest) =>
            some (.num (fpOfDecimal signBody.1 (digitsToNat (ipAll ++ fs)) (e - (fs.length : Int))), rest)

mutual

def parseJsonVal : Nat → List Char → Option (Json × List Char)
  | 0, _ => none
  | fuel + 1, s =>
      let t := s.dropWhile jsonWsC
      match t with
      | [] => none
      | c :: rest =>
          if c = qmark then (parseJsonStr fuel rest).map (fun p => (.str p.1, p.2))
          else if c = '[' then
            parseJsonItems fuel rest
          else if c = lbrace then
            parseJsonFields fuel rest
          else if startsEx "true".data t then some (.bool true, t.drop 4)
          else if startsEx "false".data t then some (.bool false, t.drop 5)
          else if startsEx "null".data t then some (.null, t.drop 4)
          else parseJsonNum t

/-- Array elements after `[`. -/
def parseJsonItems : Nat → List Char → Option (Json × List Char)
  | 0, _ => none
  | fuel + 1, s =>
      let t := s.dropWhile jsonWsC
      match t with
      | c :: rest =>
          if c = ']' then some (.arr [], rest)
          else
            match parseJsonItemsLoop fuel s with
            | some (items, r) => some (.arr items, r)
            | none => none
      | [] => none

def parseJsonItemsLoop : Nat → List Char → Option (List Json × List Char)
  | 0, _ => none
  | fuel + 1, s =>
      match parseJsonVal fuel s with
      | none => none
      | some (v, r) =>
          let t := r.dropWhile jsonWsC
          match t with
          | c :: rest =>
              if c = ',' then
                match parseJsonItemsLoop fuel rest with
                | some (items, r2) => some (v :: items, r2)
                | none => none
              else if c = ']' then some ([v], rest)
              else none
          | [] => none

/-- Object members after the opening brace. -/
def parseJsonFields : Nat → List Char → Option (Json × List Char)
  | 0, _ => none
  | fuel + 1, s =>
      let t := s.dropWhile jsonWsC
      match t with
      | c :: rest =>
          if c = rbrace then some (.obj [], rest)
          else
            match parseJsonFieldsLoop fuel s with
            | some (fields, r) => some (.obj fields, r)
            | none => none
      | [] => none

def parseJsonFieldsLoop : Nat → List Char → Option (List (List Char × Json) × List Char)
  | 0, _ => none
  | fuel + 1, s =>
      let t := s.dropWhile jsonWsC
      match t with
      | c :: rest =>
          if c = qmark then
            match parseJsonStr fuel rest with
            | none => none
            | some (key, r1) =>
                let t2 := r1.dropWhile jsonWsC
                match t2 with
                | d :: rest2 =>
                    if d = ':' then
                      match parseJsonVal fuel rest2 with
                      | none => none
                      | some (v, r2) =>
                          let t3 := r2.dropWhile jsonWsC
                          match t3 with
                          | e :: rest3 =>
                              if e = ',' then
                                match parseJsonFieldsLoop fuel rest3 with
                                | some (fields, r3) => some ((key, v) :: fields, r3)
                                | none => none
                              else if e = rbrace then some ([(key, v)], rest3)
                              else none
                          | [] => none
                    else none
                | [] => none
          else none
      | [] => none

end

/-- `JSON.parse`: a single value with only trailing whitespace allowed. -/
def jsonParse (s : List Char) : Option Json :=
  match parseJsonVal (2 * s.length + 16) s with
  | some (v, rest) => if (rest.dropWhile jsonWsC).isEmpty then some v else none
  | none => none

end ArtDetective

namespace ArtDetective

/-! ### JSON-LD field extraction (`extractFromJsonLd`) -/

structure LdResult where
  title : Option (List Char) := none
  price : Option JsNum := none
  currency : Option (List Char) := none
  images : Option (List (List Char)) := none
  deriving DecidableEq, Repr

/-- Object member lookup with JavaScript semantics: in an object built by
`JSON.parse`, a repeated key keeps its last occurrence. -/
def objGet (fields : List (List Char × Json)) (key : List Char) : Option Json :=
  (fields.reverse.find? (fun f => f.1 == key)).map (fun f => f.2)

/-- Field extraction from one parsed JSON-LD block (lines 80–90 of the
source).  `none` models the uncaught `TypeError` of a property access on
`null`, which the surrounding `try` turns into skipping the block; any other
non-object value yields only `undefined` properties. -/
def ldFields (j : Json) : Option LdResult :=
  match j with
  | .null => none
  | .obj fs =>
      let title := match objGet fs "name".data with
        | some (.str s) => some s
        | _ => none
      let offerFs := match objGet fs "offers".data with
        | some (.obj o) => o
        | _ => []
      let price := match objGet offerFs "price".data with
        | some (.str s) => jsNumberOfStr s
        | some (.num n) => some n
        | _ => none
      let currency := match objGet offerFs "priceCurrency".data with
        | some (.str s) => some s
        | _ => none
      let images := match objGet fs "image".data with
        | some (.str s) => some [s]
        | some (.arr items) => some (items.filterMap (fun it =>
            match it with
            | .str s => some s
            | _ => none))
        | _ => none
      some ⟨title, price, currency, images⟩
  | _ => some ⟨none, none, none, none⟩

/-- The truthiness test `title || price || currency || images?.length` on the
extracted fields (empty string, ±0, NaN and undefined are falsy). -/
def ldTruthy (r : LdResult) : Bool :=
  (match r.title with
   | some s => !s.isEmpty
   | none => false) ||
  (match r.price with
   | some n => !(n.mag.m == 0)
   | none => false) ||
  (match r.currency with
   | some s => !s.isEmpty
   | none => false) ||
  (match r.images with
   | some l => !l.isEmpty
   | none => false)

def extractLdGo : List (List Char) → LdResult
  | [] => {}
  | b :: rest =>
      let t := jsTrimL b
      if t.isEmpty then extractLdGo rest
      else
        match jsonParse t with
        | none => extractLdGo rest
        | some j =>
            match ldFields j with
            | none => extractLdGo rest
            | some r => if ldTruthy r then r else extractLdGo rest

def extractFromJsonLd (raw : List Char) : LdResult := extractLdGo (scanLdScripts raw)

/-! ### Image URL harvesting (`extractImageUrls`) -/

def urlCharC (c : Char) : Bool :=
  !(c = qmark || c = apos || c = '<' || c = '>' || jsWs c)

/-- `\.(?:jpg|jpeg|png|webp)` at the head of `s` (ordered alternation). -/
def imgExtAt (s : List Char) : Option Nat :=
  match s with
  | c :: rest =>
      if c = '.' then
        if startsCI "jpg".data rest then some 4
        else if startsCI "jpeg".data rest then some 5
        else if startsCI "png".data rest then some 4
        else if startsCI "webp".data rest then some 4
        else none
      else none
  | [] => none

/-- Lazy `[^"'<>\s]+?` expansion: at each step the extension is tried first,
then one more class character is consumed. -/
def imgLazyGo : List Char → Option Nat
  | [] => none
  | c :: rest =>
      match imgExtAt (c :: rest) with
      | some l => some l
      | none => if urlCharC c then (imgLazyGo rest).map (fun l => l + 1) else none

/-- Anchored match length of
`https?:\/\/[^"'<>\s]+?\.(?:jpg|jpeg|png|webp)(?:\?[^"'<>\s]*)?` (with `/i`). -/
def imgMatchAt (s : List Char) : Option Nat :=
  let scheme : Option Nat :=
    if startsCI "https://".data s then some 8
    else if startsCI "http://".data s then some 7
    else none
  match scheme with
  | none => none
  | some base =>
      match s.drop base with
      | c :: rest =>
          if urlCharC c then
            match imgLazyGo rest with
            | none => none
            | some l =>
                let core := base + 1 + l
                let queryLen : Nat :=
                  match (s.drop core).head? with
                  | some q => if q = '?' then 1 + ((s.drop (core + 1)).takeWhile urlCharC).length else 0
                  | none => 0
                some (core + queryLen)
          else none
      | [] => none

def extractImageUrlsF : Nat → List Char → List (List Char)
  | 0, _ => []
  | _, [] => []
  | fuel + 1, c :: rest =>
      match imgMatchAt (c :: rest) with
      | some l => (c :: rest).take l :: extractImageUrlsF fuel ((c :: rest).drop l)
      | none => extractImageUrlsF fuel rest

/-- First-seen-order de-duplication, as `[...new Set(xs)]` and the
`indexOf`-filter both produce. -/
def dedupeKeepF {α : Type} [BEq α] : Nat → List α → List α
  | 0, _ => []
  | _, [] => []
  | fuel + 1, x :: rest => x :: dedupeKeepF fuel (rest.filter (fun y => !(y == x)))

def dedupeKeep {α : Type} [BEq α] (l : List α) : List α := dedupeKeepF l.length l

def extractImageUrls (raw : List Char) : List (List Char) :=
  (dedupeKeep (extractImageUrlsF (raw.length + 1) raw)).take 8

/-! ### Last-resort price patterns -/

/-- Anchored capture of `/"price"\s*:\s*"?(\d+(?:\.\d+)?)"?/i`. -/
def priceJsonAt (s : List Char) : Option (List Char) :=
  if startsCI ([qmark] ++ "price".data ++ [qmark]) s then
    let t := (s.drop 7).dropWhile jsWs
    match t with
    | c :: rest =>
        if c = ':' then
          let u := rest.dropWhile jsWs
          let u2 := match u with
            | q :: uu => if q = qmark then uu else u
            | [] => u
          let ds := u2.takeWhile isDigitC
          if ds.length = 0 then none
          else
            let afterInt := u2.drop ds.length
            let frac : List Char :=
              match afterInt with
              | d :: uu =>
                  if d = '.' then
                    let fs := uu.takeWhile isDigitC
                    if fs.length = 0 then [] else '.' :: fs
                  else []
              | [] => []
            some (ds ++ frac)
        else none
    | [] => none
  else none

def priceJsonMatch (raw : List Char) : Option (List Char) := scanFirst priceJsonAt raw

/-- Anchored capture of `/\$([0-9,]+(?:\.\d+)?)/`. -/
def priceDollarAt (s : List Char) : Option (List Char) :=
  match s with
  | c :: rest =>
      if c = '$' then
        let ds := rest.takeWhile (fun d => isDigitC d || d = ',')
        if ds.length = 0 then none
        else
          let afterInt := rest.drop ds.length
          let frac : List Char :=
            match afterInt with
            | d :: uu =>
                if d = '.' then
                  let fs := uu.takeWhile isDigitC
                  if fs.length = 0 then [] else '.' :: fs
                else []
            | [] => []
          some (ds ++ frac)
      else none
  | [] => none

def priceDollarMatch (raw : List Char) : Option (List Char) := scanFirst priceDollarAt raw

end ArtDetective

namespace ArtDetective

/-! ### Dimension inference (`inferDimensions`)

`/\b(\d{1,4}(?:\.\d+)?)\s*(?:x|by)\s*(\d{1,4}(?:\.\d+)?)(?:\s*(?:x|by)\s*(\d{1,4}(?:\.\d+)?))?\s*(cm|mm|inches|inch|in|")\b/i`
with the regex's backtracking order: longer digit runs first, fraction
included before excluded, the optional third dimension tried before omitted,
unit alternatives in the written order. -/

def firstSome {α β : Type} (f : α → Option β) : List α → Option β
  | [] => none
  | x :: rest =>
      match f x with
      | some v => some v
      | none => firstSome f rest

/-- Candidate lengths for `\d{1,4}(?:\.\d+)?` at the head of `s`, in
backtracking order. -/
def numPartLens (s : List Char) : List Nat :=
  let d := min (s.takeWhile isDigitC).length 4
  (List.range d).map (fun i => d - i) |>.flatMap (fun dl =>
    match s.drop dl with
    | c :: rest =>
        if c = '.' then
          let fl := (rest.takeWhile isDigitC).length
          if fl = 0 then [dl] else [dl + 1 + fl, dl]
        else [dl]
    | [] => [dl])

/-- `\s*(?:x|by)\s*` consumed length at the head of `s`. -/
def dimSepLen (s : List Char) : Option Nat :=
  let w1 := (s.takeWhile jsWs).length
  let t := s.drop w1
  let sep : Option Nat :=
    if startsCI "x".data t then some 1
    else if startsCI "by".data t then some 2
    else none
  match sep with
  | none => none
  | some l => some (w1 + l + ((t.drop l).takeWhile jsWs).length)

/-- Unit alternation `(cm|mm|inches|inch|in|")`, first match in written order,
returning matched length and the normalised unit of the source's replace
chain. -/
def dimUnitAt (s : List Char) : Option (Nat × List Char) :=
  if startsCI "cm".data s then some (2, "cm".data)
  else if startsCI "mm".data s then some (2, "mm".data)
  else if startsCI "inches".data s then some (6, "in".data)
  else if startsCI "inch".data s then some (4, "in".data)
  else if startsCI "in".data s then some (2, "in".data)
  else
    match s with
    | c :: _ => if c = qmark then some (1, "in".data) else none
    | [] => none

/-- The tail `\s*(unit)\b` after the dimension groups; returns the formatted
unit when it matches. -/
def dimUnitTail (s : List Char) : Option (List Char) :=
  let w := (s.takeWhile jsWs).length
  let t := s.drop w
  match dimUnitAt t with
  | none => none
  | some (ul, norm) =>
      let lastC := (t.take ul).getLastD ' '
      if wordOpt (some lastC) != wordOpt ((t.drop ul).head?) then some norm else none

/-- Anchored dimension match (after the leading `\b` has been checked by the
caller); returns the formatted result string of `inferDimensions`. -/
def dimsGroupsAt (s : List Char) : Option (List Char) :=
  firstSome (fun l1 =>
    let g1 := s.take l1
    let r1 := s.drop l1
    match dimSepLen r1 with
    | none => none
    | some ls1 =>
        let r2 := r1.drop ls1
        firstSome (fun l2 =>
          let g2 := r2.take l2
          let r3 := r2.drop l2
          let withThird : Option (List Char) :=
            match dimSepLen r3 with
            | none => none
            | some ls2 =>
                let r4 := r3.drop ls2
                firstSome (fun l3 =>
                  let g3 := r4.take l3
                  match dimUnitTail (r4.drop l3) with
                  | none => none
                  | some u =>
                      some (g1 ++ " x ".data ++ g2 ++ " x ".data ++ g3 ++ [' '] ++ u))
                  (numPartLens r4)
          match withThird with
          | some v => some v
          | none =>
              match dimUnitTail r3 with
              | none => none
              | some u => some (g1 ++ " x ".data ++ g2 ++ [' '] ++ u))
          (numPartLens r2))
    (numPartLens s)

def dimsScan : Option Char → List Char → Option (List Char)
  | _, [] => none
  | prev, c :: rest =>
      let here : Option (List Char) :=
        if (wordOpt prev != wordOpt (some c)) && isDigitC c then dimsGroupsAt (c :: rest)
        else none
      match here with
      | some v => some v
      | none => dimsScan (some c) rest

def inferDimensions (raw : List Char) : Option (List Char) := dimsScan none raw

/-! ### Artist inference -/

def quoteClassC (c : Char) : Bool :=
  c = qmark || c = apos || c = Char.ofNat 8220 || c = Char.ofNat 8221

/-- `title.search(/["'“”]/)`: index of the first quote-class character. -/
def quoteIdxAux : Nat → List Char → Option Nat
  | _, [] => none
  | i, c :: rest => if quoteClassC c then some i else quoteIdxAux (i + 1) rest

def quoteIdx (s : List Char) : Option Nat := quoteIdxAux 0 s

/-- `value.replace(/\s+/g, " ")`: every whitespace run becomes one space.
The flag records that the previous character was part of a run. -/
def collapseAux : Bool → List Char → List Char
  | _, [] => []
  | inRun, c :: rest =>
      if jsWs c then
        if inRun then collapseAux true rest else ' ' :: collapseAux true rest
      else c :: collapseAux false rest

def collapseWs (l : List Char) : List Char := collapseAux false l

def stripLead (l : List Char) : List Char := l.dropWhile (fun c => !(isAZ c))

def allowTail (c : Char) : Bool := isAZ c || c = '.' || c = apos || c = '-' || jsWs c

def stripTrail (l : List Char) : List Char :=
  (l.reverse.dropWhile (fun c => !(allowTail c))).reverse

def sanitizeArtistCandidate (l : List Char) : List Char :=
  jsTrimL (stripTrail (stripLead (collapseWs l)))

/-- `split(/\s+/).filter(Boolean).length`: number of maximal non-whitespace
runs. -/
def countWordsAux : Bool → List Char → Nat
  | _, [] => 0
  | inW, c :: rest =>
      if jsWs c then countWordsAux false rest
      else (if inW then 0 else 1) + countWordsAux true rest

def countWords (l : List Char) : Nat := countWordsAux false l

def looksLikeArtistName (l : List Char) : Bool :=
  !l.isEmpty && !(l.any isDigitC) && (2 ≤ countWords l && countWords l ≤ 5)

/-- Anchored capture of `\bby\s+([A-Za-z][A-Za-z .'\-]{1,80})` (with `/i`). -/
def byCapAt (prev : Option Char) (s : List Char) : Option (List Char) :=
  if (wordOpt prev != wordOpt s.head?) && startsCI "by".data s then
    let rest := s.drop 2
    let w := rest.takeWhile jsWs
    if w.length = 0 then none
    else
      match rest.drop w.length with
      | c :: cs =>
          if isAZ c then
            let cls : Char → Bool := fun d => isAZ d || d = ' ' || d = '.' || d = apos || d = '-'
            some (c :: (cs.takeWhile cls).take 80)
          else none
      | [] => none
  else none

def byCapScan : Option Char → List Char → Option (List Char)
  | _, [] => none
  | prev, c :: rest =>
      match byCapAt prev (c :: rest) with
      | some v => some v
      | none => byCapScan (some c) rest

def byCapture (s : List Char) : Option (List Char) := byCapScan none s

/-- Anchored capture of `^(.+?)\s*[-|:]` (lazy prefix, tried shortest first;
`.` excludes line terminators). -/
def sepAfter (t : List Char) : Bool :=
  match t.dropWhile jsWs with
  | c :: _ => c = '-' || c = '|' || c = ':'
  | [] => false

def sepCapAux : List Char → List Char → Option (List Char)
  | acc, t =>
      if sepAfter t then some acc.reverse
      else
        match t with
        | c :: rest => if isDotC c then sepCapAux (c :: acc) rest else none
        | [] => none

def sepCapture (s : List Char) : Option (List Char) :=
  match s with
  | c :: rest => if isDotC c then sepCapAux [c] rest else none
  | [] => none

def unknownArtist : List Char := "Unknown artist".data

def inferArtistFallback (title : List Char) : List Char :=
  let f := sanitizeArtistCandidate title
  if looksLikeArtistName f then f else unknownArtist

def inferArtistSep (title : List Char) : List Char :=
  match sepCapture title with
  | some cap =>
      let c := sanitizeArtistCandidate cap
      if looksLikeArtistName c then c else inferArtistFallback title
  | none => inferArtistFallback title

def inferArtistBy (title : List Char) : List Char :=
  match byCapture title with
  | some cap =>
      let c := sanitizeArtistCandidate cap
      if looksLikeArtistName c then c else inferArtistSep title
  | none => inferArtistSep title

def inferArtistName (title : List Char) : List Char :=
  match quoteIdx title with
  | some qi =>
      if 0 < qi then
        let c := sanitizeArtistCandidate (title.take qi)
        if looksLikeArtistName c then c else inferArtistBy title
      else inferArtistBy title
  | none => inferArtistBy title

end ArtDetective

namespace ArtDetective

/-! ### Evidence checks, buckets and scoring -/

inductive CheckValue where
  | good
  | needsReview
  | missingEvidence
  deriving DecidableEq, Repr

inductive RecAction where
  | proceed
  | askSellerForDocs
  | waitMonitor
  deriving DecidableEq, Repr

structure SnapshotCheck where
  label : String
  value : CheckValue
  detail : String
  deriving DecidableEq, Repr

def toCheck (label : String) (good : Bool) (detailWhenGood detailWhenMissing : String) :
    SnapshotCheck :=
  ⟨label, if good then .good else .missingEvidence,
    if good then detailWhenGood else detailWhenMissing⟩

def computeStatus (score : Nat) : CheckValue :=
  if 75 ≤ score then .good else if 50 ≤ score then .needsReview else .missingEvidence

/-- `Math.round((value / total) * 100)` with `value` accumulated as 1 per
`Good` and 0.5 per `Needs review`, all in double arithmetic. -/
def computeBucketScore (checks : List SnapshotCheck) : Nat :=
  let total := checks.length
  let value := checks.foldl (fun sum c =>
    match c.value with
    | .good => fpAdd sum ⟨1, 0⟩
    | .needsReview => fpAdd sum ⟨1, -1⟩
    | .missingEvidence => sum) ⟨0, 0⟩
  jsRoundFP (fpMul (fpDiv value (fpOfNat total)) (fpOfNat 100))

def authenticityChecks (coa sig ed : Bool) : List SnapshotCheck :=
  [toCheck "COA presence" coa "COA language detected." "No COA mention found.",
   toCheck "Signature evidence" sig "Signature keywords detected." "No signature evidence found.",
   toCheck "Edition consistency" ed "Edition/numbering clues detected." "Edition details missing."]

def provenanceChecks (prov rel : Bool) : List SnapshotCheck :=
  [toCheck "Prior listing/sale mentions" prov "Provenance or prior-sale context found." "No provenance trail mentioned.",
   toCheck "Release context" rel "Release/date context appears in listing." "Release context is missing."]

def priceChecks (hasPrice comp : Bool) : List SnapshotCheck :=
  [⟨"Comparable listings/sales",
    if hasPrice then .good else .missingEvidence,
    if hasPrice then "Current listing includes a concrete price." else "No concrete listing price extracted."⟩,
   toCheck "12-month trend band" comp "Market-comparison language detected." "No trend/comparable references found.",
   ⟨"Percentile position",
    if hasPrice && comp then .needsReview else .missingEvidence,
    if hasPrice && comp then "Price is available; percentile still requires stronger market feed."
    else "Not enough context to compute percentile position."⟩]

def riskChecks (ret ins prot seller : Bool) : List SnapshotCheck :=
  [toCheck "Return policy" ret "Return policy terms detected." "Return policy not clearly stated.",
   toCheck "Shipping insurance" ins "Shipping insurance language detected." "No shipping insurance mention.",
   toCheck "Buyer protection" prot "Buyer protection terms found." "Buyer protection mention missing.",
   toCheck "Seller reliability" seller "Seller reliability signals detected." "Seller reliability signal missing."]

def visualChecks (quality detail docs : Bool) : List SnapshotCheck :=
  [toCheck "Image quality score" quality "At least one image detected." "No listing images detected.",
   toCheck "Detail shots" detail "Multiple images suggest detail coverage." "No detail-shot coverage detected.",
   toCheck "Docs detection" docs "COA/receipt-like docs mention detected." "No COA/receipt docs mention detected."]

structure Bucket where
  key : String
  label : String
  weight : Nat
  checks : List SnapshotCheck
  score : Nat
  status : CheckValue
  explanation : String
  deriving DecidableEq, Repr

def mkBaseBucket (key label : String) (weight : Nat) (checks : List SnapshotCheck) : Bucket :=
  ⟨key, label, weight, checks, computeBucketScore checks, .needsReview, ""⟩

/-- The status/explanation pass over `baseBuckets` (lines 296–306). -/
def finishBucket (b : Bucket) : Bucket :=
  let status := computeStatus b.score
  let evidenceGood := (b.checks.filter (fun c => c.value == .good)).length
  let frac := Nat.repr evidenceGood ++ "/" ++ Nat.repr b.checks.length
  let explanation :=
    match status with
    | .good => frac ++ " signals are solid in this bucket."
    | .needsReview => "Partial evidence (" ++ frac ++ ") — verify missing items with seller."
    | .missingEvidence => "Low evidence (" ++ frac ++ ") — high uncertainty remains."
  { b with status := status, explanation := explanation }

/-- `Math.round(buckets.reduce((acc, b) => acc + b.score * (b.weight / 100), 0))`
in double arithmetic. -/
def overallScore (bs : List Bucket) : Nat :=
  jsRoundFP (bs.foldl (fun acc b =>
    fpAdd acc (fpMul (fpOfNat b.score) (fpDiv (fpOfNat b.weight) (fpOfNat 100)))) ⟨0, 0⟩)

/-! ### Snapshot assembly (`buildSnapshotFromUrl` after a successful fetch)

The generated `listingId` and `fetchedAt` timestamp are opaque collaborator
values outside the pure pipeline and are not part of the model. -/

structure Overview where
  imageUrls : List String
  artistName : String
  title : String
  dimensions : String
  price : Option JsNum
  currency : String
  medium : String
  yearOfRelease : String
  deriving DecidableEq, Repr

structure SnapshotOut where
  score : Nat
  status : CheckValue
  recommendedAction : RecAction
  topPositiveSignals : List String
  topMissingOrSuspiciousSignals : List String
  buckets : List Bucket
  deriving DecidableEq, Repr

structure ResponseBody where
  source : String
  snapshot : SnapshotOut
  artworkOverview : Overview
  deriving DecidableEq, Repr

/-- JavaScript `a || b || … || dflt` over possibly-absent strings (empty
strings are falsy). -/
def firstTruthy : List (Option (List Char)) → List Char → List Char
  | [], dflt => dflt
  | o :: rest, dflt =>
      match o with
      | some s => if s.isEmpty then firstTruthy rest dflt else s
      | none => firstTruthy rest dflt

def searchableOf (raw : List Char) : List Char := raw.map lowerC

/-- The resolved listing title (lines 170–177). -/
def titleOf (raw : List Char) : List Char :=
  let jsonLd := extractFromJsonLd raw
  let ogTitle := extractMetaContent raw "og:title".data
  let stripped := (titleTagMatch raw).map (fun c => jsTrimL (stripEbaySuffix c))
  jsTrimL (firstTruthy [jsonLd.title, ogTitle, stripped] "Untitled listing".data)

/-- The resolved price (lines 178–186). -/
def priceOf (raw : List Char) : Option JsNum :=
  match (extractFromJsonLd raw).price with
  | some n => some n
  | none =>
      match priceJsonMatch raw with
      | some cap => jsNumberOfStr cap
      | none =>
          match priceDollarMatch raw with
          | some cap => jsNumberOfStr (cap.filter (fun c => !(c = ',')))
          | none => none

def currencyOf (raw : List Char) : List Char :=
  firstTruthy [(extractFromJsonLd raw).currency,
    extractMetaContent raw "product:price:currency".data] "USD".data

/-- The combined, de-duplicated, truncated image URL list (lines 190–195). -/
def imageUrlsOf (raw : List Char) : List (List Char) :=
  let jsonLd := extractFromJsonLd raw
  let ogImage := extractMetaContent raw "og:image".data
  (dedupeKeep ((jsonLd.images.getD []) ++
    (match ogImage with
     | some i => [i]
     | none => []) ++
    extractImageUrlsF (raw.length + 1) raw)).take 8

/-- `/ebay\./i.test(url) ? "ebay" : …` — substring tests on the whole URL
string (line 336). -/
def sourceTag (url : List Char) : String :=
  if containsCI "ebay.".data url then "ebay"
  else if containsCI "stockx.".data url then "stockx"
  else if containsCI "artsy.".data url then "artsy"
  else "listing"

def baseBucketsOf (raw : List Char) : List Bucket :=
  let searchable := searchableOf raw
  let price := priceOf raw
  let imageUrls := imageUrlsOf raw
  let coa := hasCoa searchable
  let docs := hasDocsWord searchable || coa
  [mkBaseBucket "authenticity" "Authenticity" 35
      (authenticityChecks coa (hasSignatureEvidence searchable) (hasEditionEvidence searchable)),
   mkBaseBucket "provenance" "Provenance" 20
      (provenanceChecks (hasProvenance searchable) (hasReleaseContext searchable)),
   mkBaseBucket "price" "Price reassurance" 20
      (priceChecks price.isSome (hasPriceComparable searchable)),
   mkBaseBucket "risk" "Risk reducers" 15
      (riskChecks (hasReturnPolicy searchable) (hasInsurance searchable)
        (hasBuyerProtection searchable) (hasSellerReliability searchable)),
   mkBaseBucket "visual" "Visual proof" 10
      (visualChecks (0 < imageUrls.length) (2 ≤ imageUrls.length) docs)]

def bucketsOf (raw : List Char) : List Bucket := (baseBucketsOf raw).map finishBucket

def signalOf (b : Bucket) (c : SnapshotCheck) : String := "[" ++ b.label ++ "] " ++ c.detail

def positiveSignalsOf (bs : List Bucket) : List String :=
  (bs.flatMap (fun b => (b.checks.filter (fun c => c.value == .good)).map (signalOf b))).take 3

def missingSignalsOf (bs : List Bucket) : List String :=
  (bs.flatMap (fun b => (b.checks.filter (fun c => !(c.value == .good))).map (signalOf b))).take 3

def authenticityOrRiskWeak (bs : List Bucket) : Bool :=
  bs.any (fun b => (b.key == "authenticity" || b.key == "risk") && b.status == .missingEvidence)

def recommendedActionOf (score : Nat) (bs : List Bucket) : RecAction :=
  if 75 ≤ score && !(authenticityOrRiskWeak bs) then .proceed
  else if 50 ≤ score then .askSellerForDocs
  else .waitMonitor

/-- The pure pipeline of `buildSnapshotFromUrl` applied to fetched text and
the request URL. -/
def buildSnapshotModel (raw url : String) : ResponseBody :=
  let rawL := raw.data
  let buckets := bucketsOf rawL
  let score := overallScore buckets
  let title := titleOf rawL
  ⟨sourceTag url.data,
   ⟨score, computeStatus score, recommendedActionOf score buckets,
    positiveSignalsOf buckets, missingSignalsOf buckets, buckets⟩,
   ⟨(imageUrlsOf rawL).map String.mk,
    String.mk (inferArtistName title),
    String.mk title,
    String.mk ((inferDimensions rawL).getD "Not provided".data),
    priceOf rawL,
    String.mk (currencyOf rawL),
    "Not provided",
    "Not provided"⟩⟩

/-! ### The Listing Fetcher (`fetchListingHtml`)

Network effects are modelled by an oracle mapping each request URL to the
outcome of `fetchWithTimeout` for it; the function returns the result together
with the list of URLs actually requested, in order. -/

inductive FetchError where
  | timeout
  | httpStatus (code : Nat)
  | botBlocked
  deriving DecidableEq, Repr

structure HttpResponse where
  ok : Bool
  status : Nat
  body : String
  deriving DecidableEq, Repr

inductive FetchAttempt where
  | timeout
  | response (r : HttpResponse)
  deriving DecidableEq, Repr

/-- Outcome of the direct attempt (lines 35–39): timeout aborts, a non-ok
status throws, a bot-blocked body throws, otherwise the body is returned. -/
def directOutcome (a : FetchAttempt) : Except FetchError String :=
  match a with
  | .timeout => .error .timeout
  | .response r =>
      if !r.ok then .error (.httpStatus r.status)
      else if isLikelyBotBlock r.body.data then .error .botBlocked
      else .ok r.body

/-- `url.replace(/^https?:\/\//i, "")`. -/
def stripScheme (url : List Char) : List Char :=
  if startsCI "https://".data url then url.drop 8
  else if startsCI "http://".data url then url.drop 7
  else url

def fallbackUrlOf (url : String) : String :=
  "https://r.jina.ai/http://" ++ String.mk (stripScheme url.data)

/-- `new URL(url).hostname`, for syntactically valid http(s) URLs: the
authority after the scheme, without userinfo or port, lowercased (IPv6
bracket syntax is not modelled; no input here uses it). -/
def hostOf (url : String) : String :=
  let rest := match searchPos (fun s => if startsCI "://".data s then some 3 else none) url.data with
    | some (i, l) => url.data.drop (i + l)
    | none => []
  let authority := rest.takeWhile (fun c => !(c = '/' || c = '?' || c = '#'))
  let afterUser := ((authority.reverse.takeWhile (fun c => !(c = '@'))).reverse)
  String.mk ((afterUser.takeWhile (fun c => !(c = ':'))).map lowerC)

/-- `/(?:^|\.)ebay\./i.test(hostname)`. -/
def isEbayHostAux : Option Char → List Char → Bool
  | prev, c :: rest =>
      ((prev = none || prev = some '.') && startsCI "ebay.".data (c :: rest)) ||
        isEbayHostAux (some c) rest
  | _, [] => false

def isEbayHost (h : String) : Bool := isEbayHostAux none h.data

def isEbayUrl (url : String) : Bool := isEbayHost (hostOf url)

/-- `fetchListingHtml` (lines 25–50): the direct attempt, and on any failure
for an `ebay.*` host exactly one proxy fallback whose body is returned
unchecked when its status is ok. -/
def fetchListingHtml (oracle : String → FetchAttempt) (url : String) :
    Except FetchError String × List String :=
  match directOutcome (oracle url) with
  | .ok body => (.ok body, [url])
  | .error e =>
      if !isEbayUrl url then (.error e, [url])
      else
        let fb := fallbackUrlOf url
        match oracle fb with
        | .timeout => (.error .timeout, [url, fb])
        | .response r =>
            if !r.ok then (.error (.httpStatus r.status), [url, fb])
            else (.ok r.body, [url, fb])

/-- Claim-side (spec-worded) source tag: substring match on the URL HOST
(`ebay → ebay`, `stockx → stockx`, `artsy → artsy`, else `listing`).  Kept
separate from the model's `sourceTag` to compare the two. -/
def specSourceTagByHost (host : String) : String :=
  if containsCI "ebay".data host.data then "ebay"
  else if containsCI "stockx".data host.data then "stockx"
  else if containsCI "artsy".data host.data then "artsy"
  else "listing"

end ArtDetective

namespace ArtDetective

/-! ### Statement-level helper definitions -/

/-- The overall-score double computation specialised to the five bucket
scores with the program's fixed weights 35/20/20/15/10, in fold order. -/
def overallScoreOfFive (sa sp spr sr sv : Nat) : Nat :=
  jsRoundFP
    (fpAdd (fpAdd (fpAdd (fpAdd (fpAdd ⟨0, 0⟩
      (fpMul (fpOfNat sa) (fpDiv (fpOfNat 35) (fpOfNat 100))))
      (fpMul (fpOfNat sp) (fpDiv (fpOfNat 20) (fpOfNat 100))))
      (fpMul (fpOfNat spr) (fpDiv (fpOfNat 20) (fpOfNat 100))))
      (fpMul (fpOfNat sr) (fpDiv (fpOfNat 15) (fpOfNat 100))))
      (fpMul (fpOfNat sv) (fpDiv (fpOfNat 10) (fpOfNat 100))))

/-- One finite case of the overall-score analysis: the double score is at most
100 and either agrees with exact half-up rounding of the weighted sum or is
the one tie-breaking tuple (33,0,0,75,67) where the double sum falls just
below 29.5. -/
def c1Case (sa sp spr sr sv : Nat) : Bool :=
  decide (overallScoreOfFive sa sp spr sr sv ≤ 100) &&
  ((overallScoreOfFive sa sp spr sr sv == (35*sa+20*sp+20*spr+15*sr+10*sv + 50) / 100) ||
   (sa == 33 && sp == 0 && spr == 0 && sr == 75 && sv == 67 &&
    overallScoreOfFive sa sp spr sr sv == 29))

def authScoreSet : List Nat := [0, 33, 67, 100]

def provScoreSet : List Nat := [0, 50, 100]

def priceScoreSet : List Nat := [0, 33, 83]

def riskScoreSet : List Nat := [0, 25, 50, 75, 100]

def visualScoreSet : List Nat := [0, 33, 67, 100]

def c1AllCases : Bool :=
  authScoreSet.all fun sa => provScoreSet.all fun sp => priceScoreSet.all fun spr =>
    riskScoreSet.all fun sr => visualScoreSet.all fun sv => c1Case sa sp spr sr sv

def goodCount (cs : List SnapshotCheck) : Nat :=
  (cs.filter (fun c => c.value == .good)).length

def nrCount (cs : List SnapshotCheck) : Nat :=
  (cs.filter (fun c => c.value == .needsReview)).length

def dfltBucket : Bucket := ⟨"", "", 0, [], 0, .good, ""⟩

def dfltCheck : SnapshotCheck := ⟨"", .good, ""⟩

/-! ### Concrete inputs used in counterexamples and witnesses -/

def c1CounterRaw : String :=
  "signed. return policy. insured. guarantee. https://img.example/a.jpg https://img.example/b.jpg"

def c1CounterUrl : String := "https://example.com/x"

def c2WitnessRaw : String := "hand-signed with certificate of authenticity"

def c2CounterRaw : String := "ahand-signedb acertificate of authenticityb"

def c4WitnessHtml : String :=
  "<script type=\"application/ld+json\">\x7b\"name\":\"Untitled Work\",\"offers\":\x7b\"price\":\"120.50\",\"priceCurrency\":\"GBP\"\x7d\x7d</script><title>Conflict Title</title> price tag $99.99"

def c4CounterHtml : String :=
  "<script type=\"application/ld+json\">\x7b\"name\":\"Other\"\x7d</script><script type=\"application/ld+json\">\x7b\"name\":\"Untitled Work\",\"offers\":\x7b\"price\":\"120.50\",\"priceCurrency\":\"GBP\"\x7d\x7d</script><title>Conflict Title</title> price tag $99.99"

/-- The double closest to 120.50 (it is exactly 120.5 = 8479433673408512·2⁻⁴⁶). -/
def price12050 : JsNum := ⟨false, ⟨8479433673408512, -46⟩⟩

def c5NonEbayUrl : String := "https://example.com/a"

def c5EbayUrl : String := "https://www.ebay.co.uk/itm/9"

def c5TimeoutOracle : String → FetchAttempt := fun _ => .timeout

def c5EbayOracle : String → FetchAttempt := fun u =>
  if u = c5EbayUrl then .timeout else .response ⟨false, 503, ""⟩

def c10Oracle : String → FetchAttempt := fun u =>
  if u = c5EbayUrl then .response ⟨false, 403, "x"⟩
  else .response ⟨true, 200, "robot check interstitial"⟩

def c7TitleOnlyHtml : String := "<title>Zorro</title>"

def c8CounterTitle : String := "Works by John Smith \"Hello\""

def c8WitnessTitle : String := "Painting Alpha Beta"

def c9CounterUrl : String := "https://example.com/ebay.html"

end ArtDetective

namespace ArtDetective

/-! ## Helper lemmas -/

theorem stringMk_data (s : String) : String.mk s.data = s := rfl

/-- Half-up rounding of a nonnegative rational `a / b` as a natural-number
computation. -/
theorem ratRoundHalfUp_natCast_div (a b : ℕ) (hb : 0 < b) :
    ratRoundHalfUp ((a : ℚ) / (b : ℚ)) = (((2 * a + b) / (2 * b) : ℕ) : ℤ) := by
  have hbq : (b : ℚ) ≠ 0 := by positivity
  have h : (a : ℚ) / (b : ℚ) + 1 / 2 = (((2 * a + b : ℕ) : ℤ) : ℚ) / ((2 * b : ℕ) : ℚ) := by
    push_cast
    field_simp
    ring
  rw [ratRoundHalfUp, h, Rat.floor_intCast_div_natCast]
  exact (Int.natCast_div (2 * a + b) (2 * b)).symm

theorem c1_all_cases_true : c1AllCases = true := by decide

theorem c1Case_of_mem {sa sp spr sr sv : ℕ}
    (h1 : sa ∈ authScoreSet) (h2 : sp ∈ provScoreSet) (h3 : spr ∈ priceScoreSet)
    (h4 : sr ∈ riskScoreSet) (h5 : sv ∈ visualScoreSet) :
    c1Case sa sp spr sr sv = true := by
  have h := c1_all_cases_true
  simp only [c1AllCases, List.all_eq_true] at h
  exact h sa h1 sp h2 spr h3 sr h4 sv h5

theorem authScore_cases : ∀ a b c : Bool,
    computeBucketScore (authenticityChecks a b c) =
      (100 * (2 * goodCount (authenticityChecks a b c) + nrCount (authenticityChecks a b c)) +
        (authenticityChecks a b c).length) / (2 * (authenticityChecks a b c).length) ∧
    computeBucketScore (authenticityChecks a b c) ∈ authScoreSet := by decide

theorem provScore_cases : ∀ a b : Bool,
    computeBucketScore (provenanceChecks a b) =
      (100 * (2 * goodCount (provenanceChecks a b) + nrCount (provenanceChecks a b)) +
        (provenanceChecks a b).length) / (2 * (provenanceChecks a b).length) ∧
    computeBucketScore (provenanceChecks a b) ∈ provScoreSet := by decide

theorem priceScore_cases : ∀ a b : Bool,
    computeBucketScore (priceChecks a b) =
      (100 * (2 * goodCount (priceChecks a b) + nrCount (priceChecks a b)) +
        (priceChecks a b).length) / (2 * (priceChecks a b).length) ∧
    computeBucketScore (priceChecks a b) ∈ priceScoreSet := by decide

theorem riskScore_cases : ∀ a b c d : Bool,
    computeBucketScore (riskChecks a b c d) =
      (100 * (2 * goodCount (riskChecks a b c d) + nrCount (riskChecks a b c d)) +
        (riskChecks a b c d).length) / (2 * (riskChecks a b c d).length) ∧
    computeBucketScore (riskChecks a b c d) ∈ riskScoreSet := by decide

theorem visualScore_cases : ∀ a b c : Bool,
    computeBucketScore (visualChecks a b c) =
      (100 * (2 * goodCount (visualChecks a b c) + nrCount (visualChecks a b c)) +
        (visualChecks a b c).length) / (2 * (visualChecks a b c).length) ∧
    computeBucketScore (visualChecks a b c) ∈ visualScoreSet := by decide

theorem bucketsOf_eq (rawL : List Char) : bucketsOf rawL = [
    finishBucket (mkBaseBucket "authenticity" "Authenticity" 35
      (authenticityChecks (hasCoa (searchableOf rawL)) (hasSignatureEvidence (searchableOf rawL))
        (hasEditionEvidence (searchableOf rawL)))),
    finishBucket (mkBaseBucket "provenance" "Provenance" 20
      (provenanceChecks (hasProvenance (searchableOf rawL)) (hasReleaseContext (searchableOf rawL)))),
    finishBucket (mkBaseBucket "price" "Price reassurance" 20
      (priceChecks (priceOf rawL).isSome (hasPriceComparable (searchableOf rawL)))),
    finishBucket (mkBaseBucket "risk" "Risk reducers" 15
      (riskChecks (hasReturnPolicy (searchableOf rawL)) (hasInsurance (searchableOf rawL))
        (hasBuyerProtection (searchableOf rawL)) (hasSellerReliability (searchableOf rawL)))),
    finishBucket (mkBaseBucket "visual" "Visual proof" 10
      (visualChecks (0 < (imageUrlsOf rawL).length) (2 ≤ (imageUrlsOf rawL).length)
        (hasDocsWord (searchableOf rawL) || hasCoa (searchableOf rawL))))] := rfl

theorem finishBucket_score (b : Bucket) : (finishBucket b).score = b.score := rfl

theorem finishBucket_key (b : Bucket) : (finishBucket b).key = b.key := rfl

theorem finishBucket_weight (b : Bucket) : (finishBucket b).weight = b.weight := rfl

theorem finishBucket_checks (b : Bucket) : (finishBucket b).checks = b.checks := rfl

theorem finishBucket_status (b : Bucket) : (finishBucket b).status = computeStatus b.score := rfl

theorem mkBaseBucket_score (k l : String) (w : Nat) (cs : List SnapshotCheck) :
    (mkBaseBucket k l w cs).score = computeBucketScore cs := rfl

theorem modelScore_def (raw url : String) :
    (buildSnapshotModel raw url).snapshot.score = overallScore (bucketsOf raw.data) := by
  simp only [buildSnapshotModel]

theorem modelBuckets_def (raw url : String) :
    (buildSnapshotModel raw url).snapshot.buckets = bucketsOf raw.data := rfl

theorem modelSource_def (raw url : String) :
    (buildSnapshotModel raw url).source = sourceTag url.data := rfl

theorem modelStatus_def (raw url : String) :
    (buildSnapshotModel raw url).snapshot.status =
      computeStatus (buildSnapshotModel raw url).snapshot.score := by
  simp only [buildSnapshotModel]

theorem modelAction_def (raw url : String) :
    (buildSnapshotModel raw url).snapshot.recommendedAction =
      recommendedActionOf (buildSnapshotModel raw url).snapshot.score (bucketsOf raw.data) := by
  simp only [buildSnapshotModel]

theorem overallScore_five (b1 b2 b3 b4 b5 : Bucket)
    (h1 : b1.weight = 35) (h2 : b2.weight = 20) (h3 : b3.weight = 20)
    (h4 : b4.weight = 15) (h5 : b5.weight = 10) :
    overallScore [b1, b2, b3, b4, b5] =
      overallScoreOfFive b1.score b2.score b3.score b4.score b5.score := by
  simp only [overallScore, overallScoreOfFive, List.foldl, h1, h2, h3, h4, h5]

theorem modelScore_eq (raw url : String) :
    (buildSnapshotModel raw url).snapshot.score = overallScoreOfFive
      (computeBucketScore (authenticityChecks (hasCoa (searchableOf raw.data))
        (hasSignatureEvidence (searchableOf raw.data)) (hasEditionEvidence (searchableOf raw.data))))
      (computeBucketScore (provenanceChecks (hasProvenance (searchableOf raw.data))
        (hasReleaseContext (searchableOf raw.data))))
      (computeBucketScore (priceChecks (priceOf raw.data).isSome
        (hasPriceComparable (searchableOf raw.data))))
      (computeBucketScore (riskChecks (hasReturnPolicy (searchableOf raw.data))
        (hasInsurance (searchableOf raw.data)) (hasBuyerProtection (searchableOf raw.data))
        (hasSellerReliability (searchableOf raw.data))))
      (computeBucketScore (visualChecks (0 < (imageUrlsOf raw.data).length)
        (2 ≤ (imageUrlsOf raw.data).length)
        (hasDocsWord (searchableOf raw.data) || hasCoa (searchableOf raw.data)))) := by
  rw [modelScore_def, bucketsOf_eq, overallScore_five _ _ _ _ _ rfl rfl rfl rfl rfl]
  rfl

theorem scanWB_mono {a : KwAlt} {alts : List KwAlt} (ha : a ∈ alts) :
    ∀ (prev : Option Char) (s : List Char), scanWB [a] prev s = true → scanWB alts prev s = true := by
  intro prev s
  induction s generalizing prev with
  | nil => simp [scanWB]
  | cons c rest ih =>
      simp only [scanWB, List.any_cons, List.any_nil, Bool.or_false, Bool.or_eq_true] at *
      rintro (h | h)
      · exact Or.inl (List.any_eq_true.mpr ⟨a, ha, h⟩)
      · exact Or.inr (ih (some c) h)

end ArtDetective

namespace ArtDetective

theorem mkBaseBucket_weight (k l : String) (w : Nat) (cs : List SnapshotCheck) :
    (mkBaseBucket k l w cs).weight = w := rfl

theorem bucketData_eq (rawL : List Char) :
    ((bucketsOf rawL).map fun b => b.weight) = [35, 20, 20, 15, 10] ∧
    ((bucketsOf rawL).map fun b => b.score) =
      [computeBucketScore (authenticityChecks (hasCoa (searchableOf rawL))
          (hasSignatureEvidence (searchableOf rawL)) (hasEditionEvidence (searchableOf rawL))),
        computeBucketScore (provenanceChecks (hasProvenance (searchableOf rawL))
          (hasReleaseContext (searchableOf rawL))),
        computeBucketScore (priceChecks (priceOf rawL).isSome
          (hasPriceComparable (searchableOf rawL))),
        computeBucketScore (riskChecks (hasReturnPolicy (searchableOf rawL))
          (hasInsurance (searchableOf rawL)) (hasBuyerProtection (searchableOf rawL))
          (hasSellerReliability (searchableOf rawL))),
        computeBucketScore (visualChecks (0 < (imageUrlsOf rawL).length)
          (2 ≤ (imageUrlsOf rawL).length)
          (hasDocsWord (searchableOf rawL) || hasCoa (searchableOf rawL)))] ∧
    (((bucketsOf rawL).map fun b => (b.score : ℚ) * (b.weight : ℚ)).sum) =
      ((35 * computeBucketScore (authenticityChecks (hasCoa (searchableOf rawL))
          (hasSignatureEvidence (searchableOf rawL)) (hasEditionEvidence (searchableOf rawL))) +
        20 * computeBucketScore (provenanceChecks (hasProvenance (searchableOf rawL))
          (hasReleaseContext (searchableOf rawL))) +
        20 * computeBucketScore (priceChecks (priceOf rawL).isSome
          (hasPriceComparable (searchableOf rawL))) +
        15 * computeBucketScore (riskChecks (hasReturnPolicy (searchableOf rawL))
          (hasInsurance (searchableOf rawL)) (hasBuyerProtection (searchableOf rawL))
          (hasSellerReliability (searchableOf rawL))) +
        10 * computeBucketScore (visualChecks (0 < (imageUrlsOf rawL).length)
          (2 ≤ (imageUrlsOf rawL).length)
          (hasDocsWord (searchableOf rawL) || hasCoa (searchableOf rawL))) : ℕ) : ℚ) := by
  rw [bucketsOf_eq]
  refine ⟨rfl, rfl, ?_⟩
  simp only [List.map_cons, List.map_nil, List.sum_cons, List.sum_nil,
    finishBucket_score, finishBucket_weight, mkBaseBucket_score, mkBaseBucket_weight]
  push_cast
  ring

/-- The overall double score against exact rounding, over the reachable
per-bucket score sets: agreement except at the single tuple (33,0,0,75,67). -/
theorem c1_main (sa sp spr sr sv : ℕ) (h1 : sa ∈ authScoreSet) (h2 : sp ∈ provScoreSet)
    (h3 : spr ∈ priceScoreSet) (h4 : sr ∈ riskScoreSet) (h5 : sv ∈ visualScoreSet) :
    ((overallScoreOfFive sa sp spr sr sv : ℤ) =
        ratRoundHalfUp (((35 * sa + 20 * sp + 20 * spr + 15 * sr + 10 * sv : ℕ) : ℚ) / 100)) ∨
      (sa = 33 ∧ sp = 0 ∧ spr = 0 ∧ sr = 75 ∧ sv = 67 ∧
        overallScoreOfFive sa sp spr sr sv = 29 ∧
        ratRoundHalfUp (((35 * sa + 20 * sp + 20 * spr + 15 * sr + 10 * sv : ℕ) : ℚ) / 100) = 30) := by
  have hcase := c1Case_of_mem h1 h2 h3 h4 h5
  simp only [c1Case, Bool.and_eq_true, Bool.or_eq_true, beq_iff_eq, decide_eq_true_eq] at hcase
  have h100 : (100 : ℚ) = ((100 : ℕ) : ℚ) := by norm_cast
  have hb := ratRoundHalfUp_natCast_div (35 * sa + 20 * sp + 20 * spr + 15 * sr + 10 * sv) 100
    (by norm_num)
  have hd : (2 * (35 * sa + 20 * sp + 20 * spr + 15 * sr + 10 * sv) + 100) / (2 * 100) =
      (35 * sa + 20 * sp + 20 * spr + 15 * sr + 10 * sv + 50) / 100 := by omega
  rcases hcase.2 with h | h
  · left
    rw [h, h100, hb, hd]
  · right
    rcases h with ⟨⟨⟨⟨⟨ea, eb⟩, ec⟩, ed⟩, ee⟩, ef⟩
    subst ea; subst eb; subst ec; subst ed; subst ee
    refine ⟨rfl, rfl, rfl, rfl, rfl, ef, ?_⟩
    rw [h100, hb]
    norm_num

/-- C1 (amended): for every snapshot the five weights are exactly
35/20/20/15/10, and the overall score equals
round(Σ bucket.score × bucket.weight / 100) — computed, as the program does,
in IEEE-754 double arithmetic.  This agrees with exact rational half-up
rounding for every reachable combination of bucket scores except
(33, 0, 0, 75, 67), where the double sum 29.499999999999996 falls just below
the exact tie 29.5, so the program yields 29 while exact rounding yields 30. -/
theorem c1_overall_score_amended (raw url : String) :
    ((buildSnapshotModel raw url).snapshot.buckets.map (fun b => b.weight) =
        [35, 20, 20, 15, 10]) ∧
    ((((buildSnapshotModel raw url).snapshot.score : ℤ) =
        ratRoundHalfUp ((((buildSnapshotModel raw url).snapshot.buckets.map
          (fun b => (b.score : ℚ) * (b.weight : ℚ))).sum) / 100)) ∨
      (((buildSnapshotModel raw url).snapshot.buckets.map (fun b => b.score) =
          [33, 0, 0, 75, 67]) ∧
        (buildSnapshotModel raw url).snapshot.score = 29 ∧
        ratRoundHalfUp ((((buildSnapshotModel raw url).snapshot.buckets.map
          (fun b => (b.score : ℚ) * (b.weight : ℚ))).sum) / 100) = 30)) := by
  obtain ⟨hw, hsc, hsum⟩ := bucketData_eq raw.data
  rw [modelBuckets_def, modelScore_eq, hw, hsc, hsum]
  refine ⟨rfl, ?_⟩
  rcases c1_main _ _ _ _ _ (authScore_cases _ _ _).2 (provScore_cases _ _).2
      (priceScore_cases _ _).2 (riskScore_cases _ _ _ _).2 (visualScore_cases _ _ _).2 with h | h
  · exact Or.inl h
  · obtain ⟨ea, eb, ec, ed, ee, ef, eg⟩ := h
    exact Or.inr ⟨by rw [ea, eb, ec, ed, ee], ef, eg⟩

/-- C1 (counterexample): a concrete listing text reaching bucket scores
(33, 0, 0, 75, 67): the program's overall score is 29, while
round(Σ score×weight/100) over the exact rationals is 30 — the claim's
equation fails on this snapshot. -/
theorem c1_overall_score_counterexample :
    ((buildSnapshotModel c1CounterRaw c1CounterUrl).snapshot.buckets.map (fun b => b.score) =
        [33, 0, 0, 75, 67]) ∧
    (buildSnapshotModel c1CounterRaw c1CounterUrl).snapshot.score = 29 ∧
    ratRoundHalfUp ((((buildSnapshotModel c1CounterRaw c1CounterUrl).snapshot.buckets.map
        (fun b => (b.score : ℚ) * (b.weight : ℚ))).sum) / 100) = 30 ∧
    ¬ (((buildSnapshotModel c1CounterRaw c1CounterUrl).snapshot.score : ℤ) =
        ratRoundHalfUp ((((buildSnapshotModel c1CounterRaw c1CounterUrl).snapshot.buckets.map
          (fun b => (b.score : ℚ) * (b.weight : ℚ))).sum) / 100)) := by
  obtain ⟨hw, hsc, hsum⟩ := bucketData_eq c1CounterRaw.data
  have hv : ((bucketsOf c1CounterRaw.data).map fun b => b.score) = [33, 0, 0, 75, 67] := by
    decide
  have hscore : (buildSnapshotModel c1CounterRaw c1CounterUrl).snapshot.score = 29 := by
    decide
  rw [hsc] at hv
  simp only [List.cons.injEq, and_true] at hv
  obtain ⟨e1, e2, e3, e4, e5⟩ := hv
  rw [e1, e2, e3, e4, e5] at hsum
  have hround : ratRoundHalfUp ((((bucketsOf c1CounterRaw.data).map
      (fun b => (b.score : ℚ) * (b.weight : ℚ))).sum) / 100) = 30 := by
    rw [hsum]
    have h100 : (100 : ℚ) = ((100 : ℕ) : ℚ) := by norm_cast
    have hb := ratRoundHalfUp_natCast_div (35 * 33 + 20 * 0 + 20 * 0 + 15 * 75 + 10 * 67) 100
      (by norm_num)
    norm_num at hb ⊢
    exact hb
  refine ⟨by rw [modelBuckets_def, hsc, e1, e2, e3, e4, e5], hscore, ?_, ?_⟩
  · rw [modelBuckets_def]
    exact hround
  · rw [modelBuckets_def, hscore, hround]
    norm_num

end ArtDetective

namespace ArtDetective

/-! ## Claim C3: recommended action and status thresholds -/

theorem weak_iff (bs : List Bucket) :
    authenticityOrRiskWeak bs = true ↔
      ∃ b ∈ bs, (b.key = "authenticity" ∨ b.key = "risk") ∧ b.status = .missingEvidence := by
  simp [authenticityOrRiskWeak, List.any_eq_true]

theorem recommendedActionOf_iff (S : ℕ) (bs : List Bucket) :
    (recommendedActionOf S bs = .proceed ↔
      (75 ≤ S ∧ ¬ (authenticityOrRiskWeak bs = true))) ∧
    (recommendedActionOf S bs = .askSellerForDocs ↔
      (¬ (75 ≤ S ∧ ¬ (authenticityOrRiskWeak bs = true)) ∧ 50 ≤ S)) ∧
    (recommendedActionOf S bs = .waitMonitor ↔
      (¬ (75 ≤ S ∧ ¬ (authenticityOrRiskWeak bs = true)) ∧ S < 50)) := by
  unfold recommendedActionOf
  cases hW : authenticityOrRiskWeak bs <;>
    rcases Nat.lt_or_ge S 50 with h50 | h50 <;>
    rcases Nat.lt_or_ge S 75 with h75 | h75 <;>
    simp [hW, h50, h75, Nat.not_le.mpr h50, Nat.not_le.mpr h75]

/-- C3: the recommended action is `Proceed` exactly when the overall score is
≥ 75 and neither the authenticity nor the risk bucket sits at `Missing
evidence` status; otherwise `Ask seller for docs` exactly when the score is
≥ 50; otherwise `Wait/monitor`.  Bucket and overall statuses follow the
identical 75/50 thresholds. -/
theorem c3_recommended_action (raw url : String) :
    ((buildSnapshotModel raw url).snapshot.recommendedAction = .proceed ↔
      (75 ≤ (buildSnapshotModel raw url).snapshot.score ∧
        ¬ ∃ b ∈ (buildSnapshotModel raw url).snapshot.buckets,
          (b.key = "authenticity" ∨ b.key = "risk") ∧ b.status = .missingEvidence)) ∧
    ((buildSnapshotModel raw url).snapshot.recommendedAction = .askSellerForDocs ↔
      (¬ (75 ≤ (buildSnapshotModel raw url).snapshot.score ∧
        ¬ ∃ b ∈ (buildSnapshotModel raw url).snapshot.buckets,
          (b.key = "authenticity" ∨ b.key = "risk") ∧ b.status = .missingEvidence) ∧
        50 ≤ (buildSnapshotModel raw url).snapshot.score)) ∧
    ((buildSnapshotModel raw url).snapshot.recommendedAction = .waitMonitor ↔
      (¬ (75 ≤ (buildSnapshotModel raw url).snapshot.score ∧
        ¬ ∃ b ∈ (buildSnapshotModel raw url).snapshot.buckets,
          (b.key = "authenticity" ∨ b.key = "risk") ∧ b.status = .missingEvidence) ∧
        (buildSnapshotModel raw url).snapshot.score < 50)) ∧
    (∀ b ∈ (buildSnapshotModel raw url).snapshot.buckets,
      b.status = if 75 ≤ b.score then CheckValue.good
        else if 50 ≤ b.score then CheckValue.needsReview else CheckValue.missingEvidence) ∧
    ((buildSnapshotModel raw url).snapshot.status =
      if 75 ≤ (buildSnapshotModel raw url).snapshot.score then CheckValue.good
      else if 50 ≤ (buildSnapshotModel raw url).snapshot.score then CheckValue.needsReview
      else CheckValue.missingEvidence) := by
  have hstat : ∀ b ∈ (buildSnapshotModel raw url).snapshot.buckets,
      b.status = if 75 ≤ b.score then CheckValue.good
        else if 50 ≤ b.score then CheckValue.needsReview else CheckValue.missingEvidence := by
    intro b hb
    rw [modelBuckets_def, bucketsOf_eq] at hb
    fin_cases hb <;> rfl
  rw [modelAction_def, modelStatus_def, modelBuckets_def]
  rw [← weak_iff (bucketsOf raw.data)]
  obtain ⟨hp, ha, hw⟩ :=
    recommendedActionOf_iff ((buildSnapshotModel raw url).snapshot.score) (bucketsOf raw.data)
  refine ⟨hp, ha, hw, ?_, rfl⟩
  intro b hb
  exact hstat b (by rw [modelBuckets_def]; exact hb)

/-! ## Claim C6: the percentile-position check -/

/-- C6: the price bucket's "Percentile position" check is `Needs review`
exactly when a concrete price was extracted and market-comparison language is
present, `Missing evidence` otherwise, and in particular is never `Good`. -/
theorem c6_percentile_never_good (raw url : String) :
    ((((buildSnapshotModel raw url).snapshot.buckets.getD 2 dfltBucket).checks.getD 2
        dfltCheck).label = "Percentile position") ∧
    ((((buildSnapshotModel raw url).snapshot.buckets.getD 2 dfltBucket).checks.getD 2
        dfltCheck).value =
      if (priceOf raw.data).isSome && hasPriceComparable (searchableOf raw.data) then
        CheckValue.needsReview
      else CheckValue.missingEvidence) ∧
    ((((buildSnapshotModel raw url).snapshot.buckets.getD 2 dfltBucket).checks.getD 2
        dfltCheck).value ∈ [CheckValue.needsReview, CheckValue.missingEvidence]) := by
  have heq : ((((buildSnapshotModel raw url).snapshot.buckets.getD 2 dfltBucket).checks.getD 2
      dfltCheck).value) =
      if (priceOf raw.data).isSome && hasPriceComparable (searchableOf raw.data) then
        CheckValue.needsReview
      else CheckValue.missingEvidence := by
    rw [modelBuckets_def, bucketsOf_eq]
    rfl
  refine ⟨by rw [modelBuckets_def, bucketsOf_eq]; rfl, heq, ?_⟩
  rw [heq]
  cases hb : ((priceOf raw.data).isSome && hasPriceComparable (searchableOf raw.data)) <;> simp

/-! ## Claim C9: the source tag -/

/-- C9 (amended): the persisted/returned source tag comes from
case-insensitive substring tests on the WHOLE URL string, with a trailing dot
in each pattern: `ebay.` → ebay, else `stockx.` → stockx, else `artsy.` →
artsy, else the generic `listing`. -/
theorem c9_source_tag_amended (raw url : String) :
    (buildSnapshotModel raw url).source =
      (if containsCI "ebay.".data url.data then "ebay"
       else if containsCI "stockx.".data url.data then "stockx"
       else if containsCI "artsy.".data url.data then "artsy"
       else "listing") := by
  rw [modelSource_def]
  rfl

/-- C9 (counterexample): for the URL `https://example.com/ebay.html` the host
is `example.com`, so the claim's host-based rule yields `listing`, but the
program tags the listing `ebay` because `ebay.` occurs in the URL's path. -/
theorem c9_source_tag_counterexample :
    hostOf c9CounterUrl = "example.com" ∧
    specSourceTagByHost (hostOf c9CounterUrl) = "listing" ∧
    (buildSnapshotModel "" c9CounterUrl).source = "ebay" ∧
    ¬ ((buildSnapshotModel "" c9CounterUrl).source =
        specSourceTagByHost (hostOf c9CounterUrl)) := by
  refine ⟨by decide, by decide, by decide, ?_⟩
  intro h
  have h1 : (buildSnapshotModel "" c9CounterUrl).source = "ebay" := by decide
  have h2 : specSourceTagByHost (hostOf c9CounterUrl) = "listing" := by decide
  rw [h1, h2] at h
  exact absurd h (by decide)

end ArtDetective

namespace ArtDetective

theorem mkBaseBucket_checks (k l : String) (w : Nat) (cs : List SnapshotCheck) :
    (mkBaseBucket k l w cs).checks = cs := rfl

/-- A bucket score in natural-division form equals the specification's
round(100 × (good + 0.5 × needs-review) / total) over exact rationals. -/
theorem bucket_score_formula (cs : List SnapshotCheck) (hl : 0 < cs.length)
    (hs : computeBucketScore cs =
      (100 * (2 * goodCount cs + nrCount cs) + cs.length) / (2 * cs.length)) :
    (computeBucketScore cs : ℤ) =
      ratRoundHalfUp (100 * ((goodCount cs : ℚ) + (nrCount cs : ℚ) / 2) / (cs.length : ℚ)) := by
  have hne : (cs.length : ℚ) ≠ 0 := by
    exact_mod_cast Nat.pos_iff_ne_zero.mp hl
  have hq : 100 * ((goodCount cs : ℚ) + (nrCount cs : ℚ) / 2) / (cs.length : ℚ) =
      ((100 * (2 * goodCount cs + nrCount cs) : ℕ) : ℚ) / ((2 * cs.length : ℕ) : ℚ) := by
    push_cast
    field_simp
    ring
  rw [hq, ratRoundHalfUp_natCast_div _ _ (by omega), hs]
  norm_cast
  rw [show 2 * (100 * (2 * goodCount cs + nrCount cs)) + 2 * cs.length =
      2 * (100 * (2 * goodCount cs + nrCount cs) + cs.length) by ring,
    show 2 * (2 * cs.length) = 2 * (2 * cs.length) from rfl,
    Nat.mul_div_mul_left _ _ (by norm_num : 0 < 2)]

end ArtDetective

namespace ArtDetective

/-! ## Claim C2: bucket scoring and the authenticity-instance -/

/-- C2 (amended): for every snapshot, every bucket's score is
round(100 × (count of Good + 0.5 × count of Needs review) / total checks), an
integer at most 100, unconditionally; and whenever the raw text's lowercased
form contains "hand-signed" and "certificate of authenticity" as
word-boundary-delimited phrases (the code's regexes are `\b`-anchored, so bare
substring containment is not enough) and no edition/numbering language, the
authenticity bucket scores round(100 × 2/3) = 67 and lands in Needs review. -/
theorem c2_bucket_score_amended (raw url : String) :
    (∀ b ∈ (buildSnapshotModel raw url).snapshot.buckets,
      (b.score : ℤ) =
        ratRoundHalfUp (100 * ((goodCount b.checks : ℚ) + (nrCount b.checks : ℚ) / 2) /
          (b.checks.length : ℚ)) ∧ b.score ≤ 100) ∧
    (testWB [kw "hand-signed"] (searchableOf raw.data) = true →
      testWB [kw "certificate of authenticity"] (searchableOf raw.data) = true →
      hasEditionEvidence (searchableOf raw.data) = false →
      ((buildSnapshotModel raw url).snapshot.buckets.getD 0 dfltBucket).score = 67 ∧
      ((buildSnapshotModel raw url).snapshot.buckets.getD 0 dfltBucket).status =
        .needsReview) := by
  refine ⟨?_, ?_⟩
  · intro b hb
    rw [modelBuckets_def, bucketsOf_eq] at hb
    fin_cases hb <;>
      simp only [finishBucket_score, finishBucket_checks, mkBaseBucket_score, mkBaseBucket_checks]
    · refine ⟨bucket_score_formula _ (Nat.succ_pos 2) (authScore_cases _ _ _).1, ?_⟩
      have hmem := (authScore_cases (hasCoa (searchableOf raw.data))
        (hasSignatureEvidence (searchableOf raw.data))
        (hasEditionEvidence (searchableOf raw.data))).2
      simp only [authScoreSet, List.mem_cons, List.not_mem_nil, or_false] at hmem
      omega
    · refine ⟨bucket_score_formula _ (Nat.succ_pos 1) (provScore_cases _ _).1, ?_⟩
      have hmem := (provScore_cases (hasProvenance (searchableOf raw.data))
        (hasReleaseContext (searchableOf raw.data))).2
      simp only [provScoreSet, List.mem_cons, List.not_mem_nil, or_false] at hmem
      omega
    · refine ⟨bucket_score_formula _ (Nat.succ_pos 2) (priceScore_cases _ _).1, ?_⟩
      have hmem := (priceScore_cases (priceOf raw.data).isSome
        (hasPriceComparable (searchableOf raw.data))).2
      simp only [priceScoreSet, List.mem_cons, List.not_mem_nil, or_false] at hmem
      omega
    · refine ⟨bucket_score_formula _ (Nat.succ_pos 3) (riskScore_cases _ _ _ _).1, ?_⟩
      have hmem := (riskScore_cases (hasReturnPolicy (searchableOf raw.data))
        (hasInsurance (searchableOf raw.data)) (hasBuyerProtection (searchableOf raw.data))
        (hasSellerReliability (searchableOf raw.data))).2
      simp only [riskScoreSet, List.mem_cons, List.not_mem_nil, or_false] at hmem
      omega
    · refine ⟨bucket_score_formula _ (Nat.succ_pos 2) (visualScore_cases _ _ _).1, ?_⟩
      have hmem := (visualScore_cases (0 < (imageUrlsOf raw.data).length)
        (2 ≤ (imageUrlsOf raw.data).length)
        (hasDocsWord (searchableOf raw.data) || hasCoa (searchableOf raw.data))).2
      simp only [visualScoreSet, List.mem_cons, List.not_mem_nil, or_false] at hmem
      omega
  · intro h1 h2 h3
    have hsig : hasSignatureEvidence (searchableOf raw.data) = true :=
      scanWB_mono (by decide) none (searchableOf raw.data) h1
    have hcoa : hasCoa (searchableOf raw.data) = true :=
      scanWB_mono (by decide) none (searchableOf raw.data) h2
    refine ⟨?_, ?_⟩
    · have hsc : ((buildSnapshotModel raw url).snapshot.buckets.getD 0 dfltBucket).score =
          computeBucketScore (authenticityChecks (hasCoa (searchableOf raw.data))
            (hasSignatureEvidence (searchableOf raw.data))
            (hasEditionEvidence (searchableOf raw.data))) := by
        rw [modelBuckets_def, bucketsOf_eq]
        rfl
      rw [hsc, hcoa, hsig, h3]
      decide
    · have hst : ((buildSnapshotModel raw url).snapshot.buckets.getD 0 dfltBucket).status =
          computeStatus (computeBucketScore (authenticityChecks (hasCoa (searchableOf raw.data))
            (hasSignatureEvidence (searchableOf raw.data))
            (hasEditionEvidence (searchableOf raw.data)))) := by
        rw [modelBuckets_def, bucketsOf_eq]
        rfl
      rw [hst, hcoa, hsig, h3]
      decide

/-- C2 (witness): the listing text "hand-signed with certificate of
authenticity" satisfies the boundary-delimited hypotheses and its
authenticity bucket scores 67, at Needs review. -/
theorem c2_bucket_score_witness :
    testWB [kw "hand-signed"] (searchableOf c2WitnessRaw.data) = true ∧
    testWB [kw "certificate of authenticity"] (searchableOf c2WitnessRaw.data) = true ∧
    hasEditionEvidence (searchableOf c2WitnessRaw.data) = false ∧
    ((buildSnapshotModel c2WitnessRaw "").snapshot.buckets.getD 0 dfltBucket).score = 67 ∧
    ((buildSnapshotModel c2WitnessRaw "").snapshot.buckets.getD 0 dfltBucket).status =
      .needsReview := by
  have h1 : testWB [kw "hand-signed"] (searchableOf c2WitnessRaw.data) = true := by decide
  have h2 : testWB [kw "certificate of authenticity"] (searchableOf c2WitnessRaw.data) = true :=
    by decide
  have h3 : hasEditionEvidence (searchableOf c2WitnessRaw.data) = false := by decide
  obtain ⟨-, hinst⟩ := c2_bucket_score_amended c2WitnessRaw ""
  obtain ⟨hs, hst⟩ := hinst h1 h2 h3
  exact ⟨h1, h2, h3, hs, hst⟩

/-- C2 (counterexample): the text "ahand-signedb acertificate of
authenticityb" contains both substrings and no edition language, yet every
authenticity keyword occurrence lacks a word boundary, so the authenticity
bucket scores 0, not 67 — plain substring containment does not suffice. -/
theorem c2_bucket_score_counterexample :
    containsEx "hand-signed".data c2CounterRaw.data = true ∧
    containsEx "certificate of authenticity".data c2CounterRaw.data = true ∧
    hasEditionEvidence (searchableOf c2CounterRaw.data) = false ∧
    ((buildSnapshotModel c2CounterRaw "").snapshot.buckets.getD 0 dfltBucket).score = 0 ∧
    ¬ (((buildSnapshotModel c2CounterRaw "").snapshot.buckets.getD 0 dfltBucket).score = 67) := by
  have h : ((buildSnapshotModel c2CounterRaw "").snapshot.buckets.getD 0 dfltBucket).score = 0 :=
    by decide
  refine ⟨by decide, by decide, by decide, h, ?_⟩
  intro h67
  rw [h] at h67
  exact absurd h67 (by decide)

end ArtDetective

namespace ArtDetective

theorem modelTitle_def (raw url : String) :
    (buildSnapshotModel raw url).artworkOverview.title = String.mk (titleOf raw.data) := by
  simp only [buildSnapshotModel]

theorem modelArtist_def (raw url : String) :
    (buildSnapshotModel raw url).artworkOverview.artistName =
      String.mk (inferArtistName (titleOf raw.data)) := by
  simp only [buildSnapshotModel]

theorem modelDims_def (raw url : String) :
    (buildSnapshotModel raw url).artworkOverview.dimensions =
      String.mk ((inferDimensions raw.data).getD "Not provided".data) := by
  simp only [buildSnapshotModel]

theorem modelCurrency_def (raw url : String) :
    (buildSnapshotModel raw url).artworkOverview.currency =
      String.mk (currencyOf raw.data) := by
  simp only [buildSnapshotModel]

/-! ## Claim C7: totality and completeness of the post-fetch pipeline -/

/-- C7: for any fetched text whatsoever the pure pipeline yields a complete
snapshot — the five buckets in order, a score at most 100, a status derived
from the score, non-empty check lists — and the sentinels "Untitled listing",
"Not provided", "USD" and "Unknown artist" fill each field whose extraction
sources all fail. -/
theorem c7_total_pipeline (raw url : String) :
    ((buildSnapshotModel raw url).snapshot.buckets.map (fun b => b.key) =
      ["authenticity", "provenance", "price", "risk", "visual"]) ∧
    (buildSnapshotModel raw url).snapshot.score ≤ 100 ∧
    ((buildSnapshotModel raw url).snapshot.status =
      computeStatus (buildSnapshotModel raw url).snapshot.score) ∧
    (∀ b ∈ (buildSnapshotModel raw url).snapshot.buckets, b.score ≤ 100 ∧ b.checks ≠ []) ∧
    ((extractFromJsonLd raw.data).title = none →
      extractMetaContent raw.data "og:title".data = none →
      titleTagMatch raw.data = none →
      (buildSnapshotModel raw url).artworkOverview.title = "Untitled listing") ∧
    (inferDimensions raw.data = none →
      (buildSnapshotModel raw url).artworkOverview.dimensions = "Not provided") ∧
    ((extractFromJsonLd raw.data).currency = none →
      extractMetaContent raw.data "product:price:currency".data = none →
      (buildSnapshotModel raw url).artworkOverview.currency = "USD") ∧
    (quoteIdx (titleOf raw.data) = none →
      byCapture (titleOf raw.data) = none →
      sepCapture (titleOf raw.data) = none →
      looksLikeArtistName (sanitizeArtistCandidate (titleOf raw.data)) = false →
      (buildSnapshotModel raw url).artworkOverview.artistName = "Unknown artist") := by
  refine ⟨by rw [modelBuckets_def, bucketsOf_eq]; rfl, ?_, modelStatus_def raw url,
    ?_, ?_, ?_, ?_, ?_⟩
  · have hcase := c1Case_of_mem
      (authScore_cases (hasCoa (searchableOf raw.data))
        (hasSignatureEvidence (searchableOf raw.data))
        (hasEditionEvidence (searchableOf raw.data))).2
      (provScore_cases (hasProvenance (searchableOf raw.data))
        (hasReleaseContext (searchableOf raw.data))).2
      (priceScore_cases (priceOf raw.data).isSome (hasPriceComparable (searchableOf raw.data))).2
      (riskScore_cases (hasReturnPolicy (searchableOf raw.data))
        (hasInsurance (searchableOf raw.data)) (hasBuyerProtection (searchableOf raw.data))
        (hasSellerReliability (searchableOf raw.data))).2
      (visualScore_cases (0 < (imageUrlsOf raw.data).length) (2 ≤ (imageUrlsOf raw.data).length)
        (hasDocsWord (searchableOf raw.data) || hasCoa (searchableOf raw.data))).2
    simp only [c1Case, Bool.and_eq_true, decide_eq_true_eq] at hcase
    rw [modelScore_eq]
    exact hcase.1
  · intro b hb
    rw [modelBuckets_def, bucketsOf_eq] at hb
    fin_cases hb <;>
      simp only [finishBucket_score, finishBucket_checks, mkBaseBucket_score, mkBaseBucket_checks]
    · have hmem := (authScore_cases (hasCoa (searchableOf raw.data))
        (hasSignatureEvidence (searchableOf raw.data))
        (hasEditionEvidence (searchableOf raw.data))).2
      simp only [authScoreSet, List.mem_cons, List.not_mem_nil, or_false] at hmem
      exact ⟨by omega, List.cons_ne_nil _ _⟩
    · have hmem := (provScore_cases (hasProvenance (searchableOf raw.data))
        (hasReleaseContext (searchableOf raw.data))).2
      simp only [provScoreSet, List.mem_cons, List.not_mem_nil, or_false] at hmem
      exact ⟨by omega, List.cons_ne_nil _ _⟩
    · have hmem := (priceScore_cases (priceOf raw.data).isSome
        (hasPriceComparable (searchableOf raw.data))).2
      simp only [priceScoreSet, List.mem_cons, List.not_mem_nil, or_false] at hmem
      exact ⟨by omega, List.cons_ne_nil _ _⟩
    · have hmem := (riskScore_cases (hasReturnPolicy (searchableOf raw.data))
        (hasInsurance (searchableOf raw.data)) (hasBuyerProtection (searchableOf raw.data))
        (hasSellerReliability (searchableOf raw.data))).2
      simp only [riskScoreSet, List.mem_cons, List.not_mem_nil, or_false] at hmem
      exact ⟨by omega, List.cons_ne_nil _ _⟩
    · have hmem := (visualScore_cases (0 < (imageUrlsOf raw.data).length)
        (2 ≤ (imageUrlsOf raw.data).length)
        (hasDocsWord (searchableOf raw.data) || hasCoa (searchableOf raw.data))).2
      simp only [visualScoreSet, List.mem_cons, List.not_mem_nil, or_false] at hmem
      exact ⟨by omega, List.cons_ne_nil _ _⟩
  · intro ha hb hc
    have ht : titleOf raw.data = "Untitled listing".data := by
      simp only [titleOf, ha, hb, hc]
      decide
    rw [modelTitle_def, ht]
  · intro h
    rw [modelDims_def, h, Option.getD_none]
  · intro ha hb
    have hc : currencyOf raw.data = "USD".data := by
      simp only [currencyOf, ha, hb]
      decide
    rw [modelCurrency_def, hc]
  · intro h1 h2 h3 h4
    have ha : inferArtistName (titleOf raw.data) = unknownArtist := by
      simp only [inferArtistName, inferArtistBy, inferArtistSep, inferArtistFallback,
        h1, h2, h3, h4]
      simp
    rw [modelArtist_def, ha]
    exact stringMk_data _

/-- C7 (witness): the empty document yields the sentinels "Untitled listing",
"Not provided" and "USD"; a document whose only title is the one-word "Zorro"
yields the artist sentinel "Unknown artist"; and the five buckets appear in
order. -/
theorem c7_total_pipeline_witness :
    (buildSnapshotModel "" "").artworkOverview.title = "Untitled listing" ∧
    (buildSnapshotModel "" "").artworkOverview.dimensions = "Not provided" ∧
    (buildSnapshotModel "" "").artworkOverview.currency = "USD" ∧
    (buildSnapshotModel c7TitleOnlyHtml "").artworkOverview.artistName = "Unknown artist" ∧
    (buildSnapshotModel "" "").snapshot.buckets.map (fun b => b.key) =
      ["authenticity", "provenance", "price", "risk", "visual"] := by
  obtain ⟨hk, -, -, -, ht, hd, hc, -⟩ := c7_total_pipeline "" ""
  obtain ⟨-, -, -, -, -, -, -, ha⟩ := c7_total_pipeline c7TitleOnlyHtml ""
  exact ⟨ht (by decide) (by decide) (by decide), hd (by decide),
    hc (by decide) (by decide), ha (by decide) (by decide) (by decide) (by decide), hk⟩

end ArtDetective

namespace ArtDetective

theorem modelPrice_def (raw url : String) :
    (buildSnapshotModel raw url).artworkOverview.price = priceOf raw.data := by
  simp only [buildSnapshotModel]

theorem firstTruthy_some {s : List Char} (h : s.isEmpty = false)
    (rest : List (Option (List Char))) (d : List Char) :
    firstTruthy (some s :: rest) d = s := by
  simp [firstTruthy, h]

/-! ## Claim C4: JSON-LD priority in extraction -/

/-- C4 (amended): whenever the JSON-LD extraction step resolves
name "Untitled Work", offers.price "120.50" and offers.priceCurrency "GBP"
(as it does when the first content-bearing `ld+json` block is such a Product
block), the extracted facts are title "Untitled Work", price 120.50 and
currency "GBP", overriding any `<title>` element or dollar-sign price
pattern elsewhere in the document — lower-priority steps only fill fields the
JSON-LD step left unset. -/
theorem c4_jsonld_priority_amended (raw url : String) (n : JsNum)
    (imgs : Option (List (List Char)))
    (h : extractFromJsonLd raw.data =
      ⟨some "Untitled Work".data, some n, some "GBP".data, imgs⟩)
    (hn : n.toRat = 241 / 2) :
    (buildSnapshotModel raw url).artworkOverview.title = "Untitled Work" ∧
    (buildSnapshotModel raw url).artworkOverview.price = some n ∧
    ((buildSnapshotModel raw url).artworkOverview.price.map JsNum.toRat = some (241 / 2)) ∧
    (buildSnapshotModel raw url).artworkOverview.currency = "GBP" := by
  have ht : titleOf raw.data = "Untitled Work".data := by
    simp only [titleOf, h]
    rw [firstTruthy_some (by decide)]
    decide
  have hp : priceOf raw.data = some n := by
    simp [priceOf, h]
  have hc : currencyOf raw.data = "GBP".data := by
    simp only [currencyOf, h]
    rw [firstTruthy_some (by decide)]
  refine ⟨?_, ?_, ?_, ?_⟩
  · rw [modelTitle_def, ht]
  · rw [modelPrice_def, hp]
  · rw [modelPrice_def, hp, Option.map_some', hn]
  · rw [modelCurrency_def, hc]

/-- C4 (witness): a document holding one schema.org Product JSON-LD block
with the given fields plus a conflicting `<title>Conflict Title</title>` and
a `$99.99` price pattern resolves to the JSON-LD values. -/
theorem c4_jsonld_priority_witness :
    titleTagMatch c4WitnessHtml.data = some "Conflict Title".data ∧
    priceDollarMatch c4WitnessHtml.data = some "99.99".data ∧
    (buildSnapshotModel c4WitnessHtml "").artworkOverview.title = "Untitled Work" ∧
    ((buildSnapshotModel c4WitnessHtml "").artworkOverview.price.map JsNum.toRat =
      some (241 / 2)) ∧
    (buildSnapshotModel c4WitnessHtml "").artworkOverview.currency = "GBP" := by
  have h : extractFromJsonLd c4WitnessHtml.data =
      ⟨some "Untitled Work".data, some price12050, some "GBP".data, none⟩ := by decide
  have hn : price12050.toRat = 241 / 2 := by
    norm_num [price12050, JsNum.toRat, FP.toRat]
  obtain ⟨ht, hp, hpr, hc⟩ := c4_jsonld_priority_amended c4WitnessHtml "" price12050 none h hn
  exact ⟨by decide, by decide, ht, hpr, hc⟩

/-- C4 (counterexample): with TWO `ld+json` blocks — an earlier one holding
only a name "Other" and then the full Product block — the document contains
the claimed Product block, yet extraction returns the first content-bearing
block: the title is "Other" and the currency falls back to "USD", not the
Product block's values. -/
theorem c4_jsonld_priority_counterexample :
    (scanLdScripts c4CounterHtml.data).length = 2 ∧
    extractLdGo [(scanLdScripts c4CounterHtml.data).getD 1 []] =
      ⟨some "Untitled Work".data, some price12050, some "GBP".data, none⟩ ∧
    (buildSnapshotModel c4CounterHtml "").artworkOverview.title = "Other" ∧
    (buildSnapshotModel c4CounterHtml "").artworkOverview.currency = "USD" ∧
    ¬ ((buildSnapshotModel c4CounterHtml "").artworkOverview.title = "Untitled Work" ∧
       (buildSnapshotModel c4CounterHtml "").artworkOverview.currency = "GBP") := by
  have ht : (buildSnapshotModel c4CounterHtml "").artworkOverview.title = "Other" := by decide
  refine ⟨by decide, by decide, ht, by decide, ?_⟩
  intro hcon
  rw [ht] at hcon
  exact absurd hcon.1 (by decide)

end ArtDetective

namespace ArtDetective

/-! ## Claim C8: artist-inference idempotence — sanitization lemmas -/

/-- Well-spaced text: every whitespace character is a plain space and no two
whitespace characters are adjacent (the shape `replace(/\s+/g, " ")`
produces). -/
def wsOk (l : List Char) : Prop :=
  (∀ c ∈ l, jsWs c = true → c = ' ') ∧
  l.Chain' (fun a b => ¬(jsWs a = true ∧ jsWs b = true))

theorem isAZ_not_jsWs {c : Char} (h : isAZ c = true) : jsWs c = false := by
  rw [Bool.eq_false_iff]
  intro hw
  simp only [isAZ, isAsciiUpper, isAsciiLowerC, Bool.or_eq_true, Bool.and_eq_true,
    decide_eq_true_eq] at h
  simp only [jsWs, Bool.or_eq_true, Bool.and_eq_true, decide_eq_true_eq] at hw
  omega

theorem collapseAux_head_not_ws (l : List Char) :
    ∀ c, (collapseAux true l).head? = some c → jsWs c = false := by
  induction l with
  | nil => simp [collapseAux]
  | cons d rest ih =>
      intro c hc
      by_cases hd : jsWs d = true
      · rw [show collapseAux true (d :: rest) = collapseAux true rest from by
          simp [collapseAux, hd]] at hc
        exact ih c hc
      · rw [show collapseAux true (d :: rest) = d :: collapseAux false rest from by
          simp [collapseAux, hd]] at hc
        simp only [List.head?_cons, Option.some.injEq] at hc
        rw [← hc]
        exact Bool.eq_false_iff.mpr hd

theorem collapseAux_wsOk (l : List Char) :
    wsOk (collapseAux false l) ∧ wsOk (collapseAux true l) := by
  induction l with
  | nil => exact ⟨⟨by simp [collapseAux], by simp [collapseAux]⟩,
      ⟨by simp [collapseAux], by simp [collapseAux]⟩⟩
  | cons d rest ih =>
      by_cases hd : jsWs d = true
      · have hfalse : collapseAux false (d :: rest) = ' ' :: collapseAux true rest := by
          simp [collapseAux, hd]
        have htrue : collapseAux true (d :: rest) = collapseAux true rest := by
          simp [collapseAux, hd]
        constructor
        · rw [hfalse]
          constructor
          · intro c hc hw
            rcases List.mem_cons.mp hc with h | h
            · exact h
            · exact ih.2.1 c h hw
          · rw [List.chain'_cons']
            refine ⟨?_, ih.2.2⟩
            intro b hb hcon
            have := collapseAux_head_not_ws rest b hb
            rw [this] at hcon
            exact absurd hcon.2 (by simp)
        · rw [htrue]
          exact ih.2
      · have hdf : jsWs d = false := Bool.eq_false_iff.mpr hd
        have hfalse : collapseAux false (d :: rest) = d :: collapseAux false rest := by
          simp [collapseAux, hdf]
        have htrue : collapseAux true (d :: rest) = d :: collapseAux false rest := by
          simp [collapseAux, hdf]
        have hcons : wsOk (d :: collapseAux false rest) := by
          constructor
          · intro c hc hw
            rcases List.mem_cons.mp hc with h | h
            · rw [h] at hw
              rw [hw] at hdf
              cases hdf
            · exact ih.1.1 c h hw
          · rw [List.chain'_cons']
            refine ⟨?_, ih.1.2⟩
            intro b _ hcon
            rw [hdf] at hcon
            exact absurd hcon.1 (by simp)
        exact ⟨hfalse ▸ hcons, htrue ▸ hcons⟩

theorem wsOk_dropWhile (p : Char → Bool) {l : List Char} (h : wsOk l) :
    wsOk (l.dropWhile p) :=
  ⟨fun c hc => h.1 c ((List.dropWhile_suffix p).subset hc),
   h.2.suffix (List.dropWhile_suffix p)⟩

theorem wsOk_reverse {l : List Char} (h : wsOk l) : wsOk l.reverse := by
  refine ⟨fun c hc => h.1 c (List.mem_reverse.mp hc), ?_⟩
  rw [List.chain'_reverse]
  exact h.2.imp (fun a b hab hcon => hab ⟨hcon.2, hcon.1⟩)

theorem wsOk_tail {d : Char} {l : List Char} (h : wsOk (d :: l)) : wsOk l :=
  ⟨fun c hc => h.1 c (List.mem_cons_of_mem d hc), (List.chain'_cons'.mp h.2).2⟩

theorem collapseAux_eq_self {l : List Char} (h : wsOk l) :
    collapseAux false l = l ∧
      ((∀ c, l.head? = some c → jsWs c = false) → collapseAux true l = l) := by
  induction l with
  | nil => exact ⟨rfl, fun _ => rfl⟩
  | cons d rest ih =>
      have hrest := wsOk_tail h
      by_cases hd : jsWs d = true
      · have hdsp : d = ' ' := h.1 d (List.mem_cons_self d rest) hd
        have hheads : ∀ c, rest.head? = some c → jsWs c = false := by
          intro c hc
          have := (List.chain'_cons'.mp h.2).1 c hc
          rw [Bool.eq_false_iff]
          intro hcw
          exact this ⟨hd, hcw⟩
        constructor
        · rw [show collapseAux false (d :: rest) = ' ' :: collapseAux true rest from by
            simp [collapseAux, hd]]
          rw [(ih hrest).2 hheads, hdsp]
        · intro hh
          have := hh d rfl
          rw [this] at hd
          cases hd
      · have hdf : jsWs d = false := Bool.eq_false_iff.mpr hd
        constructor
        · rw [show collapseAux false (d :: rest) = d :: collapseAux false rest from by
            simp [collapseAux, hdf]]
          rw [(ih hrest).1]
        · intro _
          rw [show collapseAux true (d :: rest) = d :: collapseAux false rest from by
            simp [collapseAux, hdf]]
          rw [(ih hrest).1]

end ArtDetective

namespace ArtDetective

/-! ## Claim C8: dropWhile and head plumbing -/

theorem dropWhile_head (p : Char → Bool) (l : List Char) :
    ∀ c, (l.dropWhile p).head? = some c → p c = false := by
  induction l with
  | nil => intro c h; cases h
  | cons a t ih =>
      intro c h
      rw [List.dropWhile_cons] at h
      by_cases ha : p a = true
      · rw [if_pos ha] at h
        exact ih c h
      · rw [if_neg ha] at h
        simp only [List.head?_cons, Option.some.injEq] at h
        rw [← h]
        exact Bool.eq_false_iff.mpr ha

theorem dropWhile_id_of_head (p : Char → Bool) {l : List Char}
    (h : ∀ c, l.head? = some c → p c = false) : l.dropWhile p = l := by
  cases l with
  | nil => rfl
  | cons a t => simp [List.dropWhile_cons, h a rfl]

theorem revDropRev_append (p : Char → Bool) (l : List Char) :
    ∃ t, (l.reverse.dropWhile p).reverse ++ t = l := by
  obtain ⟨t, ht⟩ := (List.dropWhile_suffix p : l.reverse.dropWhile p <:+ l.reverse)
  refine ⟨t.reverse, ?_⟩
  have h2 := congrArg List.reverse ht
  rw [List.reverse_append, List.reverse_reverse] at h2
  exact h2

theorem head_of_append {A B t : List Char} (hB : A ++ t = B) {c : Char}
    (hc : A.head? = some c) : B.head? = some c := by
  subst hB
  cases A with
  | nil => cases hc
  | cons a A => simpa using hc

/-! ## Properties of sanitizeArtistCandidate output -/

theorem sanitize_wsOk (x : List Char) : wsOk (sanitizeArtistCandidate x) := by
  have h0 : wsOk (collapseWs x) := (collapseAux_wsOk x).1
  have h1 : wsOk (stripLead (collapseWs x)) := wsOk_dropWhile _ h0
  have h2 : wsOk (stripTrail (stripLead (collapseWs x))) :=
    wsOk_reverse (wsOk_dropWhile _ (wsOk_reverse h1))
  show wsOk (jsTrimL (stripTrail (stripLead (collapseWs x))))
  exact wsOk_reverse (wsOk_dropWhile _ (wsOk_reverse (wsOk_dropWhile _ h2)))

theorem sanitize_head (x : List Char) :
    ∀ c, (sanitizeArtistCandidate x).head? = some c → isAZ c = true := by
  intro c hc
  have hb : ∀ d, (stripLead (collapseWs x)).head? = some d → isAZ d = true := by
    intro d hd
    simpa using dropWhile_head (fun e => !(isAZ e)) (collapseWs x) d hd
  obtain ⟨t2, ht2⟩ := revDropRev_append (fun e => !(allowTail e)) (stripLead (collapseWs x))
  have hc' : ∀ d, (stripTrail (stripLead (collapseWs x))).head? = some d → isAZ d = true := by
    intro d hd
    exact hb d (head_of_append ht2 hd)
  have hZ : (stripTrail (stripLead (collapseWs x))).dropWhile jsWs
      = stripTrail (stripLead (collapseWs x)) :=
    dropWhile_id_of_head jsWs (fun e he => isAZ_not_jsWs (hc' e he))
  obtain ⟨t3, ht3⟩ := revDropRev_append jsWs
      ((stripTrail (stripLead (collapseWs x))).dropWhile jsWs)
  have hy : sanitizeArtistCandidate x
      = ((((stripTrail (stripLead (collapseWs x))).dropWhile jsWs).reverse.dropWhile
          jsWs).reverse) := rfl
  rw [hy] at hc
  have hres := head_of_append ht3 hc
  rw [hZ] at hres
  exact hc' c hres

theorem sanitize_last (x : List Char) :
    ∀ c, (sanitizeArtistCandidate x).getLast? = some c → jsWs c = false := by
  intro c hc
  have hy : sanitizeArtistCandidate x
      = ((((stripTrail (stripLead (collapseWs x))).dropWhile jsWs).reverse.dropWhile
          jsWs).reverse) := rfl
  rw [hy, ← List.head?_reverse, List.reverse_reverse] at hc
  exact dropWhile_head jsWs _ c hc

/-! ## Fixed points of sanitizeArtistCandidate -/

theorem sanitize_fixed {y : List Char} (ha : wsOk y)
    (hb : ∀ c, y.head? = some c → isAZ c = true)
    (hcl : ∀ c, y.getLast? = some c → allowTail c = true)
    (hlw : ∀ c, y.getLast? = some c → jsWs c = false) :
    sanitizeArtistCandidate y = y := by
  have hnw : ∀ c, y.head? = some c → jsWs c = false := fun c h => isAZ_not_jsWs (hb c h)
  have h1 : collapseWs y = y := (collapseAux_eq_self ha).1
  have h2 : stripLead y = y := dropWhile_id_of_head _ (by intro c h; simp [hb c h])
  have h3 : stripTrail y = y := by
    show (y.reverse.dropWhile (fun c => !(allowTail c))).reverse = y
    have hrev : ∀ c, y.reverse.head? = some c → (!(allowTail c)) = false := by
      intro c h
      rw [List.head?_reverse] at h
      simp [hcl c h]
    rw [dropWhile_id_of_head _ hrev, List.reverse_reverse]
  have h4 : jsTrimL y = y := by
    show ((y.dropWhile jsWs).reverse.dropWhile jsWs).reverse = y
    rw [dropWhile_id_of_head _ hnw]
    have hrev : ∀ c, y.reverse.head? = some c → jsWs c = false := by
      intro c h
      rw [List.head?_reverse] at h
      exact hlw c h
    rw [dropWhile_id_of_head _ hrev, List.reverse_reverse]
  show jsTrimL (stripTrail (stripLead (collapseWs y))) = y
  rw [h1, h2, h3, h4]

/-! ## Regex-search reductions for the inference branches -/

theorem quoteIdxAux_none {l : List Char} (h : ∀ c ∈ l, quoteClassC c = false) :
    ∀ i, quoteIdxAux i l = none := by
  induction l with
  | nil => intro i; rfl
  | cons a t ih =>
      intro i
      have ha : quoteClassC a = false := h a (List.mem_cons_self a t)
      show (if quoteClassC a then some i else quoteIdxAux (i + 1) t) = none
      simp only [ha, Bool.false_eq_true, if_false]
      exact ih (fun c hc => h c (List.mem_cons_of_mem a hc)) (i + 1)

theorem quoteIdx_none {l : List Char} (h : l.all (fun c => !quoteClassC c) = true) :
    quoteIdx l = none :=
  quoteIdxAux_none (fun c hc => by simpa using List.all_eq_true.mp h c hc) 0

theorem inferArtistName_qnone {t : List Char} (h : quoteIdx t = none) :
    inferArtistName t = inferArtistBy t := by
  unfold inferArtistName
  rw [h]

theorem inferArtistName_qsome {t : List Char} {qi : Nat} (h : quoteIdx t = some qi) :
    inferArtistName t =
      (if 0 < qi then
        (if looksLikeArtistName (sanitizeArtistCandidate (t.take qi)) then
          sanitizeArtistCandidate (t.take qi)
        else inferArtistBy t)
      else inferArtistBy t) := by
  unfold inferArtistName
  rw [h]

theorem inferArtistBy_none {t : List Char} (h : byCapture t = none) :
    inferArtistBy t = inferArtistSep t := by
  unfold inferArtistBy
  rw [h]

theorem inferArtistBy_some {t cap : List Char} (h : byCapture t = some cap) :
    inferArtistBy t =
      (if looksLikeArtistName (sanitizeArtistCandidate cap) then
        sanitizeArtistCandidate cap
      else inferArtistSep t) := by
  unfold inferArtistBy
  rw [h]

theorem inferArtistSep_none {t : List Char} (h : sepCapture t = none) :
    inferArtistSep t = inferArtistFallback t := by
  unfold inferArtistSep
  rw [h]

theorem inferArtistSep_some {t cap : List Char} (h : sepCapture t = some cap) :
    inferArtistSep t =
      (if looksLikeArtistName (sanitizeArtistCandidate cap) then
        sanitizeArtistCandidate cap
      else inferArtistFallback t) := by
  unfold inferArtistSep
  rw [h]

theorem inferArtistFallback_fixed {t : List Char}
    (hfix : sanitizeArtistCandidate t = t) (hl : looksLikeArtistName t = true) :
    inferArtistFallback t = t := by
  show (if looksLikeArtistName (sanitizeArtistCandidate t) then
      sanitizeArtistCandidate t
    else unknownArtist) = t
  rw [hfix, if_pos hl]

/-! ## Shape of every inference result -/

theorem fallback_cases (t : List Char) :
    inferArtistFallback t = unknownArtist ∨
      (∃ s, inferArtistFallback t = sanitizeArtistCandidate s ∧
        looksLikeArtistName (inferArtistFallback t) = true) := by
  have he : inferArtistFallback t =
      (if looksLikeArtistName (sanitizeArtistCandidate t) then
        sanitizeArtistCandidate t
      else unknownArtist) := rfl
  by_cases h : looksLikeArtistName (sanitizeArtistCandidate t) = true
  · right
    refine ⟨t, ?_, ?_⟩
    · rw [he, if_pos h]
    · rw [he, if_pos h]
      exact h
  · left
    rw [he, if_neg h]

theorem sep_cases (t : List Char) :
    inferArtistSep t = unknownArtist ∨
      (∃ s, inferArtistSep t = sanitizeArtistCandidate s ∧
        looksLikeArtistName (inferArtistSep t) = true) := by
  cases hsep : sepCapture t with
  | none =>
      rw [inferArtistSep_none hsep]
      exact fallback_cases t
  | some cap =>
      rw [inferArtistSep_some hsep]
      by_cases h : looksLikeArtistName (sanitizeArtistCandidate cap) = true
      · rw [if_pos h]
        exact Or.inr ⟨cap, rfl, h⟩
      · rw [if_neg h]
        exact fallback_cases t

theorem byc_cases (t : List Char) :
    inferArtistBy t = unknownArtist ∨
      (∃ s, inferArtistBy t = sanitizeArtistCandidate s ∧
        looksLikeArtistName (inferArtistBy t) = true) := by
  cases hby : byCapture t with
  | none =>
      rw [inferArtistBy_none hby]
      exact sep_cases t
  | some cap =>
      rw [inferArtistBy_some hby]
      by_cases h : looksLikeArtistName (sanitizeArtistCandidate cap) = true
      · rw [if_pos h]
        exact Or.inr ⟨cap, rfl, h⟩
      · rw [if_neg h]
        exact sep_cases t

theorem inferArtist_cases (t : List Char) :
    inferArtistName t = unknownArtist ∨
      (∃ s, inferArtistName t = sanitizeArtistCandidate s ∧
        looksLikeArtistName (inferArtistName t) = true) := by
  cases hq : quoteIdx t with
  | none =>
      rw [inferArtistName_qnone hq]
      exact byc_cases t
  | some qi =>
      rw [inferArtistName_qsome hq]
      by_cases h0 : 0 < qi
      · rw [if_pos h0]
        by_cases h : looksLikeArtistName (sanitizeArtistCandidate (t.take qi)) = true
        · rw [if_pos h]
          exact Or.inr ⟨t.take qi, rfl, h⟩
        · rw [if_neg h]
          exact byc_cases t
      · rw [if_neg h0]
        exact byc_cases t

end ArtDetective

namespace ArtDetective

/-- C8 (amended): artist inference is idempotent on every title whose resolved
artist r = inferArtistName t contains no quote-class character, admits no
by-capture and no separator-capture, and ends in an ASCII letter, a period or
a hyphen: re-running inference on r returns r itself. -/
theorem c8_artist_idempotent_amended (t : List Char)
    (h1 : (inferArtistName t).all (fun c => !quoteClassC c) = true)
    (h2 : byCapture (inferArtistName t) = none)
    (h3 : sepCapture (inferArtistName t) = none)
    (h4 : ∀ c, (inferArtistName t).getLast? = some c →
        (isAZ c || c = '.' || c = '-') = true) :
    inferArtistName (inferArtistName t) = inferArtistName t := by
  rcases inferArtist_cases t with hu | ⟨src, hsrc, hlook⟩
  · rw [hu]
    decide
  · have hfix : sanitizeArtistCandidate (inferArtistName t) = inferArtistName t := by
      apply sanitize_fixed
      · rw [hsrc]
        exact sanitize_wsOk src
      · rw [hsrc]
        exact sanitize_head src
      · intro c hc
        have h4c := h4 c hc
        simp only [Bool.or_eq_true] at h4c
        simp only [allowTail, Bool.or_eq_true]
        tauto
      · intro c hc
        have h4c := h4 c hc
        simp only [Bool.or_eq_true, decide_eq_true_eq] at h4c
        rcases h4c with (h | rfl) | rfl
        · exact isAZ_not_jsWs h
        · decide
        · decide
    have hq := quoteIdx_none h1
    rw [inferArtistName_qnone hq, inferArtistBy_none h2, inferArtistSep_none h3,
      inferArtistFallback_fixed hfix hlook]

/-- C8 witness: the title "Painting Alpha Beta" resolves to itself and satisfies
every hypothesis of the amended idempotence theorem, so inference is idempotent
on it. -/
theorem c8_artist_idempotent_witness :
    inferArtistName (inferArtistName c8WitnessTitle.data)
      = inferArtistName c8WitnessTitle.data :=
  c8_artist_idempotent_amended c8WitnessTitle.data (by decide) (by decide) (by decide)
    (by
      intro c hc
      have he : (inferArtistName c8WitnessTitle.data).getLast? = some 'a' := by decide
      rw [he] at hc
      injection hc with h
      rw [← h]
      decide)

/-- C8 counterexample: the title with quoted segment resolves to
"Works by John Smith", but running inference again captures the by-phrase and
returns "John Smith", so inference is not idempotent in general. -/
theorem c8_artist_idempotent_counterexample :
    inferArtistName c8CounterTitle.data = "Works by John Smith".data ∧
    inferArtistName (inferArtistName c8CounterTitle.data) = "John Smith".data ∧
    inferArtistName (inferArtistName c8CounterTitle.data)
      ≠ inferArtistName c8CounterTitle.data := by
  refine ⟨by decide, by decide, ?_⟩
  decide

end ArtDetective

namespace ArtDetective

/-! ## Claim C5: fallback policy of the Fetcher -/

/-- C5: when the direct fetch fails with any error `e` (timeout, status,
bot-block), then for a non-`ebay.*` host the error propagates with no second
request, while for an `ebay.*` host exactly one fallback request is made to
the read-through proxy URL (scheme replaced by `http://` inside the proxied
path), and a non-ok fallback response propagates as the fallback's
`HttpStatus`. -/
theorem c5_fallback_policy (oracle : String → FetchAttempt) (url : String) (e : FetchError)
    (hdir : directOutcome (oracle url) = .error e) :
    (isEbayUrl url = false →
      fetchListingHtml oracle url = (.error e, [url])) ∧
    (isEbayUrl url = true →
      (fetchListingHtml oracle url).2 = [url, fallbackUrlOf url] ∧
      ∀ r : HttpResponse, oracle (fallbackUrlOf url) = .response r → r.ok = false →
        (fetchListingHtml oracle url).1 = .error (.httpStatus r.status)) := by
  constructor
  · intro hne
    simp [fetchListingHtml, hdir, hne]
  · intro he
    refine ⟨?_, ?_⟩
    · cases hf : oracle (fallbackUrlOf url) with
      | timeout => simp [fetchListingHtml, hdir, he, hf]
      | response r =>
          cases hr : r.ok
          · simp [fetchListingHtml, hdir, he, hf, hr]
          · simp [fetchListingHtml, hdir, he, hf, hr]
    · intro r hr hok
      simp [fetchListingHtml, hdir, he, hr, hok]

/-- C5 (witness): a timeout on a non-eBay host propagates as `Timeout` with a
single request, and a timeout on `www.ebay.co.uk` followed by a 503 from the
proxy propagates as `HttpStatus 503` after exactly the two requests. -/
theorem c5_fallback_policy_witness :
    fetchListingHtml c5TimeoutOracle c5NonEbayUrl = (.error .timeout, [c5NonEbayUrl]) ∧
    (fetchListingHtml c5EbayOracle c5EbayUrl).2 = [c5EbayUrl, fallbackUrlOf c5EbayUrl] ∧
    (fetchListingHtml c5EbayOracle c5EbayUrl).1 = .error (.httpStatus 503) := by
  refine ⟨?_, ?_, ?_⟩
  · exact (c5_fallback_policy c5TimeoutOracle c5NonEbayUrl .timeout rfl).1 (by decide)
  · exact ((c5_fallback_policy c5EbayOracle c5EbayUrl .timeout rfl).2 (by decide)).1
  · exact ((c5_fallback_policy c5EbayOracle c5EbayUrl .timeout rfl).2 (by decide)).2
      ⟨false, 503, ""⟩ rfl rfl

/-! ## Claim C10: no bot-block check on the fallback response -/

/-- C10: bot-block detection applies only to the direct response: for an
`ebay.*` URL whose direct fetch failed, an ok fallback response is returned
as the listing HTML even when its body matches a bot-block signature. -/
theorem c10_fallback_skips_botcheck (oracle : String → FetchAttempt) (url : String)
    (e : FetchError) (r : HttpResponse)
    (hdir : directOutcome (oracle url) = .error e)
    (he : isEbayUrl url = true)
    (hfb : oracle (fallbackUrlOf url) = .response r)
    (hok : r.ok = true)
    (hbot : isLikelyBotBlock r.body.data = true) :
    fetchListingHtml oracle url = (.ok r.body, [url, fallbackUrlOf url]) := by
  simp [fetchListingHtml, hdir, he, hfb, hok]

/-- C10 (witness): on `www.ebay.co.uk` with a 403 direct response, an ok
fallback whose body says "robot check interstitial" — a bot-block signature —
is returned as the fetched HTML. -/
theorem c10_fallback_skips_botcheck_witness :
    isLikelyBotBlock "robot check interstitial".data = true ∧
    fetchListingHtml c10Oracle c5EbayUrl =
      (.ok "robot check interstitial", [c5EbayUrl, fallbackUrlOf c5EbayUrl]) := by
  refine ⟨by decide, ?_⟩
  exact c10_fallback_skips_botcheck c10Oracle c5EbayUrl (.httpStatus 403)
    ⟨true, 200, "robot check interstitial"⟩ rfl (by decide) rfl rfl (by decide)

end ArtDetective
